import Mathlib

set_option maxRecDepth 4000
set_option linter.unusedVariables false

/-!
Shallow embedding of the scraping core of `src/services/telethon_core.py`
(NeuroScraper Pro).  Remote items (posts, comments, chat messages,
participants) are modelled as explicit lists of events; the aggregator
(`users_dict : Dict[int, ParsedUser]`) is modelled as an insertion-ordered
association list, matching Python dict semantics (`list(d.values())` is
insertion order).  Timestamps are integers, identity ids are integers.
Remote effects (sleeps, bio fetches, gender applications) are tracked in
explicit trace fields of the scan state.
-/

namespace NeuroScraper

/-- A remote account as delivered by the provider (telethon `User`). -/
structure Sender where
  id : Int
  username : Option String := none
  first_name : Option String := none
  last_name : Option String := none
  bot : Bool := false
  phone : Option String := none
  premium : Bool := false
  deriving DecidableEq

/-- Embedding of the `ParsedUser` dataclass. -/
structure ParsedUser where
  user_id : Int
  username : Option String := none
  first_name : Option String := none
  last_name : Option String := none
  last_activity : Option Int := none
  message_count : Nat := 0
  is_bot : Bool := false
  is_admin : Bool := false
  phone : Option String := none
  bio : Option String := none
  gender : Option String := none
  is_premium : Bool := false
  deriving DecidableEq

/-- One entry of `result.raw_messages` (the `message_link` string of the
source is presentation-only, built from entity attributes that are not part
of the aggregation logic, and is omitted). -/
structure RawMessage where
  user_id : Int
  username : Option String
  text : String
  date : Int
  deriving DecidableEq

/-- Embedding of the `ParsingResult` dataclass (the float `parsing_time`
wall-clock field is not modelled). -/
structure ParsingResult where
  users : List ParsedUser := []
  admins : List ParsedUser := []
  raw_messages : List RawMessage := []
  target_title : Option String := none
  total_messages_scanned : Nat := 0
  errors : List String := []
  deriving DecidableEq

/-- The aggregator `users_dict : Dict[int, ParsedUser]`, kept in insertion
order like a Python dict. -/
abbrev UsersDict := List (Int × ParsedUser)

/-- Python `k in d` / `d[k]` read access (first binding wins; with unique
keys this is exact dict lookup). -/
def lookup (k : Int) : UsersDict → Option ParsedUser
  | [] => none
  | (k₀, u) :: rest => if k₀ = k then some u else lookup k rest

/-- Overwrite the value stored at an existing key, keeping its position
(Python `d[k] = v` for a key already present, or mutating the record the
dict already holds). -/
def replaceKey (k : Int) (u : ParsedUser) : UsersDict → UsersDict
  | [] => []
  | (k₀, u₀) :: rest =>
      if k₀ = k then (k₀, u) :: replaceKey k u rest
      else (k₀, u₀) :: replaceKey k u rest

/-- Python `d[k] = v`: overwrite in place if present, else append. -/
def insertKey (k : Int) (u : ParsedUser) (d : UsersDict) : UsersDict :=
  if (lookup k d).isSome then replaceKey k u d else d ++ [(k, u)]

/-- Python `list(d.values())`. -/
def valuesOf (d : UsersDict) : List ParsedUser := d.map Prod.snd

/-- The dict invariant: each key bound at most once. -/
def keysNodup (d : UsersDict) : Prop := (d.map Prod.fst).Nodup

/-! ### The gender heuristic `TelethonCore._detect_gender` -/

/-- `female_endings` of `_detect_gender`. -/
def femaleEndings : List String := ["а", "я", "ия", "ья", "ея"]

/-- `male_exceptions` of `_detect_gender`. -/
def maleExceptions : List String :=
  ["никита", "илья", "данила", "кузьма", "фома", "лука",
   "савва", "миша", "саша", "вова", "дима", "женя", "валя",
   "костя", "коля", "сережа", "серёжа", "паша", "гоша",
   "лёша", "леша", "вася", "петя", "ваня", "толя", "боря",
   "alikhan", "mustafa", "nikita", "ilya"]

/-- `female_names` of `_detect_gender`. -/
def femaleNames : List String :=
  ["мария", "анна", "елена", "ольга", "наталья", "татьяна",
   "ирина", "светлана", "екатерина", "марина", "алина",
   "юлия", "виктория", "дарья", "полина", "анастасия",
   "ксения", "валерия", "кристина", "диана", "арина",
   "софия", "вероника", "маргарита", "алёна", "алена",
   "eva", "anna", "maria", "elena", "olga", "natalia"]

/-- `male_names` of `_detect_gender`. -/
def maleNames : List String :=
  ["александр", "сергей", "андрей", "алексей", "дмитрий",
   "максим", "иван", "михаил", "артём", "артем", "даниил",
   "кирилл", "николай", "егор", "матвей", "роман", "владимир",
   "павел", "арсений", "тимофей", "марк", "денис", "антон",
   "alex", "sergey", "andrey", "dmitry", "maxim", "ivan",
   "michael", "kirill", "roman", "pavel", "denis", "anton"]

/-- Python `str.lower()` restricted to the alphabets the name tables use
(ASCII Latin and Cyrillic, including Ё). -/
def lowerChar (c : Char) : Char :=
  if 'A' ≤ c ∧ c ≤ 'Z' then Char.ofNat (c.toNat + 32)
  else if 'А' ≤ c ∧ c ≤ 'Я' then Char.ofNat (c.toNat + 32)
  else if c = 'Ё' then 'ё'
  else c

/-- Python `str.lower()` on a whole string. -/
def pyLower (s : String) : String := String.mk (s.data.map lowerChar)

/-- Whitespace stripped by Python `str.strip()` (the common cases). -/
def isSpaceChar (c : Char) : Bool :=
  c = ' ' ∨ c = '\t' ∨ c = '\n' ∨ c = '\r' ∨ c = '\x0b' ∨ c = '\x0c'

/-- Python `str.strip()`. -/
def pyStrip (s : String) : String :=
  String.mk (((s.data.dropWhile isSpaceChar).reverse.dropWhile isSpaceChar).reverse)

/-- Python `name.endswith(suffix)`. -/
def endsWithStr (name e : String) : Bool :=
  decide (e.data.length ≤ name.data.length) &&
    (name.data.drop (name.data.length - e.data.length) == e.data)

/-- Shallow embedding of `TelethonCore._detect_gender`: a pure heuristic on
the first name.  `not first_name` in Python is true exactly for `None` and
the empty string. -/
def detectGender (first_name : Option String) : String :=
  match first_name with
  | none => "неизвестно"
  | some fn =>
    if fn = "" then "неизвестно"
    else
      let name := pyLower (pyStrip fn)
      if name ∈ femaleNames then "F"
      else if name ∈ maleNames ∨ name ∈ maleExceptions then "M"
      else if femaleEndings.any (fun e => endsWithStr name e) ∧ name ∉ maleExceptions then "F"
      else "M"

/-! ### The aggregator update `TelethonCore._process_user` -/

/-- Python truthiness of an optional string (`not x` is true for `None` and
for the empty string). -/
def optFalsy : Option String → Bool
  | none => true
  | some s => s = ""

/-- `last_activity` refresh: take the newer timestamp
(`if user.last_activity is None or message_date > user.last_activity`). -/
def updateActivity (old : Option Int) (message_date : Int) : Option Int :=
  match old with
  | none => some message_date
  | some t => if message_date > t then some message_date else some t

/-- The record `_process_user` creates on a first sighting. -/
def mkBasicUser (s : Sender) (message_date : Int) : ParsedUser :=
  { user_id := s.id, username := s.username, first_name := s.first_name,
    last_name := s.last_name, last_activity := some message_date,
    message_count := 1, is_bot := s.bot, phone := s.phone }

/-- Common skeleton of `_process_user` / `_process_user_extended`: skip bots
(unless the id is the operator's own `config.ADMIN_ID`), hide the operator,
then create-or-increment in `users_dict`.  `mkNew` is the record built on a
first sighting (the two source functions differ only there). -/
def processUserCore (adminId : Int) (mkNew : Sender → Int → ParsedUser)
    (s : Sender) (message_date : Int) (d : UsersDict) :
    Option ParsedUser × UsersDict :=
  if s.bot = true ∧ s.id ≠ adminId then (none, d)
  else if s.id = adminId then (none, d)
  else
    match lookup s.id d with
    | some u =>
        let u₁ := { u with message_count := u.message_count + 1,
                           last_activity := updateActivity u.last_activity message_date }
        (some u₁, replaceKey s.id u₁ d)
    | none =>
        let u₁ := mkNew s message_date
        (some u₁, d ++ [(s.id, u₁)])

/-- `TelethonCore._process_user`. -/
def process_user (adminId : Int) (s : Sender) (message_date : Int)
    (d : UsersDict) : Option ParsedUser × UsersDict :=
  processUserCore adminId mkBasicUser s message_date d

/-- Options of one scan call, plus the environment for the bio fetch
(`_get_user_bio` modelled as a pure lookup of the remote profile text). -/
structure ScanCfg where
  adminId : Int
  parse_bio : Bool := false
  detect_gender : Bool := false
  cutoff : Option Int := none
  bioOf : Int → Option String := fun _ => none

/-- The record `_process_user_extended` creates on a first sighting: the
basic record plus the premium flag, with gender set when `detect_gender`
and bio fetched when `parse_bio` (both only happen in this creation
branch). -/
def mkExtendedUser (cfg : ScanCfg) (s : Sender) (message_date : Int) : ParsedUser :=
  { user_id := s.id, username := s.username, first_name := s.first_name,
    last_name := s.last_name, last_activity := some message_date,
    message_count := 1, is_bot := s.bot, phone := s.phone,
    is_premium := s.premium,
    gender := if cfg.detect_gender then some (detectGender s.first_name) else none,
    bio := if cfg.parse_bio then cfg.bioOf s.id else none }

/-- `TelethonCore._process_user_extended` (dict part). -/
def processUserExtended (cfg : ScanCfg) (s : Sender) (message_date : Int)
    (d : UsersDict) : Option ParsedUser × UsersDict :=
  processUserCore cfg.adminId (mkExtendedUser cfg) s message_date d

/-- Feeding a stream of (sender, date) observations through the aggregator. -/
def foldProcess (adminId : Int) (mkNew : Sender → Int → ParsedUser)
    (d : UsersDict) : List (Sender × Int) → UsersDict
  | [] => d
  | (s, t) :: rest => foldProcess adminId mkNew (processUserCore adminId mkNew s t d).2 rest

/-- Number of stream items attributed to identity `k`: sightings that reach
the create-or-increment step (sender is a non-bot account other than the
hidden operator, with id `k`). -/
def attributedCount (adminId k : Int) : List (Sender × Int) → Nat
  | [] => 0
  | (s, _) :: rest =>
      (if s.bot = false ∧ s.id ≠ adminId ∧ s.id = k then 1 else 0) +
        attributedCount adminId k rest

/-! ### Scan state and the shared per-item body of the scan loops -/

/-- Mutable state of one scan invocation; the trace fields record the
remote-effect history (flood sleeps, bio fetches, gender applications). -/
structure ScanState where
  users : UsersDict := []
  raw : List RawMessage := []
  itemsScanned : Nat := 0
  commentsVisited : Nat := 0
  sleeps : List Nat := []
  bioFetches : List Int := []
  genderApplied : List Int := []
  deriving DecidableEq

/-- `if cutoff_date and item.date < cutoff_date` (a `None` cutoff never
triggers). -/
def olderThanCutoff (cutoff : Option Int) (date : Int) : Bool :=
  match cutoff with
  | some c => date < c
  | none => false

/-- First half of the inline enrichment block:
`if detect_gender and not user.gender: user.gender = self._detect_gender(...)`. -/
def enrichGender (cfg : ScanCfg) (u : ParsedUser) : ParsedUser :=
  if cfg.detect_gender ∧ optFalsy u.gender then
    { u with gender := some (detectGender u.first_name) }
  else u

/-- Second half of the inline enrichment block:
`if parse_bio and not user.bio: user.bio = await self._get_user_bio(...)`. -/
def enrichBio (cfg : ScanCfg) (u : ParsedUser) : ParsedUser :=
  if cfg.parse_bio ∧ optFalsy u.bio then { u with bio := cfg.bioOf u.user_id } else u

/-- Trace of the gender-heuristic application the block performs. -/
def genderTrace (cfg : ScanCfg) (u : ParsedUser) : List Int :=
  if cfg.detect_gender ∧ optFalsy u.gender then [u.user_id] else []

/-- Trace of the bio fetch the block performs (the gender step never
touches `bio`, so the guard reads the incoming record's bio). -/
def bioTrace (cfg : ScanCfg) (u : ParsedUser) : List Int :=
  if cfg.parse_bio ∧ optFalsy u.bio then [u.user_id] else []

/-- The inline enrichment block of the scan loops: the enriched record,
the gender applications and the bio fetches performed. -/
def enrichUser (cfg : ScanCfg) (u : ParsedUser) : ParsedUser × List Int × List Int :=
  (enrichBio cfg (enrichGender cfg u), genderTrace cfg u, bioTrace cfg u)

/-- One `result.raw_messages` entry (`text[:200]`). -/
def mkRaw (u : ParsedUser) (text : String) (date : Int) : RawMessage :=
  { user_id := u.user_id, username := u.username, text := text.take 200, date := date }

/-- Shared body of the message/comment scan loops: if the item has a sender,
run `_process_user`; for a returned non-bot record, apply the optional
enrichment (mutating the record held by the dict) and append the raw
observation. -/
def handleSenderItem (cfg : ScanCfg) (st : ScanState) (sender : Option Sender)
    (date : Int) (text : String) : ScanState :=
  match sender with
  | none => st
  | some s =>
    match process_user cfg.adminId s date st.users with
    | (none, d) => { st with users := d }
    | (some u, d) =>
      if u.is_bot then { st with users := d }
      else
        let (u₁, g, b) := enrichUser cfg u
        { st with users := replaceKey u.user_id u₁ d,
                  raw := st.raw ++ [mkRaw u₁ text date],
                  genderApplied := st.genderApplied ++ g,
                  bioFetches := st.bioFetches ++ b }

/-! ### Strategy: recent posts + comment threads (`parse_channel_comments`) -/

/-- One comment of a reply thread. -/
structure Comment where
  sender : Option Sender
  date : Int
  text : String := ""
  deriving DecidableEq

/-- What fetching the next item of a reply thread can deliver: a comment, or
a provider `FloodWaitError` of the given duration aborting the iterator. -/
inductive ThreadEv where
  | comment (c : Comment)
  | flood (seconds : Nat)
  deriving DecidableEq

/-- One channel post: its timestamp, its reply counter
(`message.replies.replies`), and its reply thread as delivered. -/
structure Post where
  date : Int
  replies : Nat
  thread : List ThreadEv
  deriving DecidableEq

/-- `MAX_FLOOD_WAIT = 300`. -/
def MAX_FLOOD_WAIT : Nat := 300

/-- Body of the comment loop: `comment_batch += 1`, then the cutoff check —
an older comment is skipped with `continue` (not a stop), a newer one is
processed. -/
def stepComment (cfg : ScanCfg) (st : ScanState) (c : Comment) : ScanState :=
  let st₁ := { st with commentsVisited := st.commentsVisited + 1 }
  if olderThanCutoff cfg.cutoff c.date then st₁
  else handleSenderItem cfg st₁ c.sender c.date c.text

/-- Processing a comment-only thread in order. -/
def commentsFold (cfg : ScanCfg) (st : ScanState) (cs : List Comment) : ScanState :=
  cs.foldl (stepComment cfg) st

/-- The `async for comment in client.iter_messages(..., reply_to=...)` loop:
a flood event raises out of the loop, discarding the rest of the thread. -/
def iterThread (cfg : ScanCfg) (st : ScanState) :
    List ThreadEv → ScanState ⊕ (ScanState × Nat)
  | [] => Sum.inl st
  | ThreadEv.comment c :: rest => iterThread cfg (stepComment cfg st c) rest
  | ThreadEv.flood n :: _ => Sum.inr (st, n)

/-- One post's thread, wrapped in the per-post
`try: ... except FloodWaitError` handler: within the ceiling the engine
sleeps `n+1` and falls through to the next post; beyond it the error
re-raises. -/
def runPost (cfg : ScanCfg) (st : ScanState) (p : Post) :
    ScanState ⊕ (ScanState × Nat) :=
  if 0 < p.replies then
    match iterThread cfg st p.thread with
    | Sum.inl st₂ => Sum.inl st₂
    | Sum.inr (st₂, n) =>
        if n ≤ MAX_FLOOD_WAIT then
          Sum.inl { st₂ with sleeps := st₂.sleeps ++ [n + 1] }
        else Sum.inr (st₂, n)
  else Sum.inl st

/-- The posts loop: `posts_scanned += 1`, the cutoff prefix-stop (`break`),
then the post's thread; an uncaught flood propagates out of the loop. -/
def iterPosts (cfg : ScanCfg) (st : ScanState) :
    List Post → ScanState ⊕ (ScanState × Nat)
  | [] => Sum.inl st
  | p :: rest =>
    let st₁ := { st with itemsScanned := st.itemsScanned + 1 }
    if olderThanCutoff cfg.cutoff p.date then Sum.inl st₁
    else
      match runPost cfg st₁ p with
      | Sum.inl st₂ => iterPosts cfg st₂ rest
      | Sum.inr e => Sum.inr e

/-- The admin record `_get_channel_admins` builds. -/
def mkAdminUser (s : Sender) : ParsedUser :=
  { user_id := s.id, username := s.username, first_name := s.first_name,
    last_name := s.last_name, is_admin := true, is_bot := s.bot, phone := s.phone }

/-- `TelethonCore._get_channel_admins`: filter the admin participants to
non-bot accounts, hiding the operator's own id. -/
def getChannelAdmins (adminId : Int) (participants : List Sender) : List ParsedUser :=
  participants.foldl
    (fun acc p => if p.bot = false ∧ p.id ≠ adminId then acc ++ [mkAdminUser p] else acc) []

/-- `TelethonCore._get_chat_admins`, basic-chat branch: resolve each listed
participant and apply the same non-bot / hidden-operator filter (the
supergroup branch delegates to `_get_channel_admins`). -/
def getChatAdmins (adminId : Int) (resolvedParticipants : List Sender) : List ParsedUser :=
  resolvedParticipants.foldl
    (fun acc p => if p.bot = false ∧ p.id ≠ adminId then acc ++ [mkAdminUser p] else acc) []

/-- `for admin in admins: admins_dict[admin.user_id] = admin;
admin.is_admin = True`. -/
def buildAdminsDict (admins : List ParsedUser) : UsersDict :=
  admins.foldl (fun d a => insertKey a.user_id { a with is_admin := true } d) []

/-- Result plus the scan's remote-effect trace. -/
structure ChannelRun where
  result : ParsingResult
  commentsVisited : Nat
  sleeps : List Nat
  bioFetches : List Int
  genderApplied : List Int
  deriving DecidableEq

/-- The too-long FloodWait error string of `parse_channel_comments`. -/
def floodTooLongMsg (n : Nat) : String :=
  "FloodWait слишком долгий: " ++ toString n ++ " секунд"

/-- The partial-completion note of `parse_channel_comments`. -/
def floodPartialMsg (n : Nat) : String :=
  "Парсинг частично завершён (FloodWait " ++ toString n ++ "с)"

/-- `TelethonCore.parse_channel_comments` after successful target
resolution: fetch admins, iterate the last posts with their reply threads,
assemble the result.  A flood escaping the loop hits the outer handler: at
or below the ceiling it keeps the partial aggregate with a note, beyond it
only the error string is recorded — the `users`/`admins` assignments after
the loop are skipped, so they stay empty. -/
def parseChannelComments (cfg : ScanCfg) (adminParticipants : List Sender)
    (posts : List Post) (title : String) : ChannelRun :=
  let adminsDict := buildAdminsDict (getChannelAdmins cfg.adminId adminParticipants)
  match iterPosts cfg {} posts with
  | Sum.inl st =>
    { result := { users := valuesOf st.users, admins := valuesOf adminsDict,
                  raw_messages := st.raw, target_title := some title,
                  total_messages_scanned := st.itemsScanned, errors := [] },
      commentsVisited := st.commentsVisited, sleeps := st.sleeps,
      bioFetches := st.bioFetches, genderApplied := st.genderApplied }
  | Sum.inr (st, n) =>
    if n ≤ MAX_FLOOD_WAIT then
      { result := { users := valuesOf st.users, admins := valuesOf adminsDict,
                    raw_messages := st.raw, target_title := some title,
                    total_messages_scanned := 0, errors := [floodPartialMsg n] },
        commentsVisited := st.commentsVisited, sleeps := st.sleeps ++ [n + 1],
        bioFetches := st.bioFetches, genderApplied := st.genderApplied }
    else
      { result := { users := [], admins := [],
                    raw_messages := st.raw, target_title := some title,
                    total_messages_scanned := 0, errors := [floodTooLongMsg n] },
        commentsVisited := st.commentsVisited, sleeps := st.sleeps,
        bioFetches := st.bioFetches, genderApplied := st.genderApplied }

/-! ### Strategy: chat by message activity (`parse_chat_members`) -/

/-- One chat message as iterated by `client.iter_messages`. -/
structure ChatMsg where
  sender : Option Sender
  date : Int
  text : String := ""
  deriving DecidableEq

/-- The message loop of `parse_chat_members`: `messages_scanned += 1`, the
cutoff prefix-stop (`break`), then the shared per-item body. -/
def iterChatMsgs (cfg : ScanCfg) (st : ScanState) : List ChatMsg → ScanState
  | [] => st
  | m :: rest =>
    let st₁ := { st with itemsScanned := st.itemsScanned + 1 }
    if olderThanCutoff cfg.cutoff m.date then st₁
    else iterChatMsgs cfg (handleSenderItem cfg st₁ m.sender m.date m.text) rest

/-- `TelethonCore.parse_chat_members` after successful target resolution. -/
def parseChatMembers (cfg : ScanCfg) (adminParticipants : List Sender)
    (msgs : List ChatMsg) (title : String) : ChannelRun :=
  let adminsDict := buildAdminsDict (getChatAdmins cfg.adminId adminParticipants)
  let st := iterChatMsgs cfg {} msgs
  { result := { users := valuesOf st.users, admins := valuesOf adminsDict,
                raw_messages := st.raw, target_title := some title,
                total_messages_scanned := st.itemsScanned, errors := [] },
    commentsVisited := st.commentsVisited, sleeps := st.sleeps,
    bioFetches := st.bioFetches, genderApplied := st.genderApplied }

/-! ### Strategy: single post (`parse_single_post`) -/

/-- `TelethonCore.parse_single_post` after link resolution and message
fetch: `cutoff_date = None` unconditionally — the `time_filter_days`
argument is accepted and ignored, and the whole comment thread of the one
post is processed (`comments_scanned` counts every comment).  A post
without replies yields the no-comments error and an empty user list. -/
def parseSinglePost (cfg : ScanCfg) (time_filter_days : Option Int)
    (adminParticipants : List Sender) (postReplies : Nat)
    (thread : List Comment) (title : String) : ChannelRun :=
  let cfg₀ := { cfg with cutoff := none }
  let adminsDict := buildAdminsDict (getChannelAdmins cfg.adminId adminParticipants)
  if 0 < postReplies then
    let st := commentsFold cfg₀ {} thread
    { result := { users := valuesOf st.users, admins := valuesOf adminsDict,
                  raw_messages := st.raw, target_title := some title,
                  total_messages_scanned := st.commentsVisited, errors := [] },
      commentsVisited := st.commentsVisited, sleeps := st.sleeps,
      bioFetches := st.bioFetches, genderApplied := st.genderApplied }
  else
    { result := { users := [], admins := valuesOf adminsDict,
                  raw_messages := [], target_title := some title,
                  total_messages_scanned := 0,
                  errors := ["У этого поста нет комментариев"] },
      commentsVisited := 0, sleeps := [], bioFetches := [], genderApplied := [] }

/-! ### Strategy: chat participant list (`parse_chat_participants`) -/

/-- What `client.iter_participants` can deliver: a participant, or the
provider's `ChatAdminRequiredError` (hidden membership list). -/
inductive PartEv where
  | user (s : Sender)
  | adminRequired
  deriving DecidableEq

/-- The record the participants loop builds for one non-skipped
participant: admin flag from the pre-fetched admins dict, gender set when
`detect_gender`, bio fetched when `parse_bio` (unconditional here). -/
def participantRecord (cfg : ScanCfg) (adminsDict : UsersDict) (s : Sender) : ParsedUser :=
  { user_id := s.id, username := s.username, first_name := s.first_name,
    last_name := s.last_name, is_bot := s.bot, is_premium := s.premium,
    is_admin := (lookup s.id adminsDict).isSome,
    gender := if cfg.detect_gender then some (detectGender s.first_name) else none,
    bio := if cfg.parse_bio then cfg.bioOf s.id else none }

/-- The bio fetch the participants loop performs for one participant. -/
def participantBioTrace (cfg : ScanCfg) (s : Sender) : List Int :=
  if cfg.parse_bio then [s.id] else []

/-- Body of the participants loop: skip bots, hide the operator, build the
record, store it, `users_fetched += 1`. -/
def stepParticipant (cfg : ScanCfg) (adminsDict : UsersDict) (st : ScanState)
    (s : Sender) : ScanState :=
  if s.bot = true then st
  else if s.id = cfg.adminId then st
  else
    { st with users := insertKey s.id (participantRecord cfg adminsDict s) st.users,
              itemsScanned := st.itemsScanned + 1,
              bioFetches := st.bioFetches ++ participantBioTrace cfg s }

/-- The `async for participant in client.iter_participants(...)` loop; the
admin-required error raises out of it. -/
def iterParticipants (cfg : ScanCfg) (adminsDict : UsersDict) (st : ScanState) :
    List PartEv → ScanState ⊕ ScanState
  | [] => Sum.inl st
  | PartEv.user s :: rest =>
      iterParticipants cfg adminsDict (stepParticipant cfg adminsDict st s) rest
  | PartEv.adminRequired :: _ => Sum.inr st

/-- `TelethonCore.parse_chat_participants` after successful target
resolution: on `ChatAdminRequiredError` the sentinel string
`"HIDDEN_MEMBERS"` is appended and the result returned at once, before the
`users`/`admins` assignments. -/
def parseChatParticipants (cfg : ScanCfg) (adminParticipants : List Sender)
    (events : List PartEv) (title : String) : ChannelRun :=
  let adminsDict := buildAdminsDict (getChannelAdmins cfg.adminId adminParticipants)
  match iterParticipants cfg adminsDict {} events with
  | Sum.inl st =>
    { result := { users := valuesOf st.users, admins := valuesOf adminsDict,
                  raw_messages := st.raw, target_title := some title,
                  total_messages_scanned := st.users.length, errors := [] },
      commentsVisited := st.commentsVisited, sleeps := st.sleeps,
      bioFetches := st.bioFetches, genderApplied := st.genderApplied }
  | Sum.inr st =>
    { result := { users := [], admins := [],
                  raw_messages := [], target_title := some title,
                  total_messages_scanned := 0, errors := ["HIDDEN_MEMBERS"] },
      commentsVisited := st.commentsVisited, sleeps := st.sleeps,
      bioFetches := st.bioFetches, genderApplied := st.genderApplied }

/-! ### Strategy: chat by dialog id (`parse_chat_by_id`) -/

/-- Per-item body of the `parse_chat_by_id` message loop: extended
processing (enrichment happens inside `_process_user_extended`, on first
sighting only), then the raw observation for a non-bot record. -/
def handleSenderItemExt (cfg : ScanCfg) (st : ScanState) (sender : Option Sender)
    (date : Int) (text : String) : ScanState :=
  match sender with
  | none => st
  | some s =>
    match processUserExtended cfg s date st.users with
    | (none, d) => { st with users := d }
    | (some u, d) =>
      if u.is_bot then { st with users := d }
      else { st with users := d, raw := st.raw ++ [mkRaw u text date] }

/-- The `parse_chat_by_id` message loop body (no cutoff). -/
def stepChatByIdMsg (cfg : ScanCfg) (st : ScanState) (m : ChatMsg) : ScanState :=
  handleSenderItemExt cfg { st with itemsScanned := st.itemsScanned + 1 }
    m.sender m.date m.text

/-- `TelethonCore.parse_chat_by_id` after successful target resolution. -/
def parseChatById (cfg : ScanCfg) (adminResolved : List Sender)
    (msgs : List ChatMsg) (title : String) : ChannelRun :=
  let adminsDict := buildAdminsDict (getChatAdmins cfg.adminId adminResolved)
  let st := msgs.foldl (stepChatByIdMsg cfg) {}
  { result := { users := valuesOf st.users, admins := valuesOf adminsDict,
                raw_messages := st.raw, target_title := some title,
                total_messages_scanned := st.itemsScanned, errors := [] },
    commentsVisited := st.commentsVisited, sleeps := st.sleeps,
    bioFetches := st.bioFetches, genderApplied := st.genderApplied }

/-! ### The flood-wait retry policy (`handle_flood_wait` decorator) -/

/-- One invocation of the wrapped call: a value or a wait signal. -/
inductive CallOutcome (α : Type) where
  | ok (a : α)
  | flood (seconds : Nat)
  deriving DecidableEq

/-- Outcome of running the decorated call: the final result (`Except.error n`
is a propagated `FloodWaitError` of `n` seconds), the sleeps performed, and
how many times the wrapped call was invoked. -/
structure RetryRun (α : Type) where
  result : Except Nat α
  sleeps : List Nat
  calls : Nat

/-- The `while retries < max_retries` loop of `handle_flood_wait`: `f i` is
the outcome of the i-th invocation.  A wait above `MAX_FLOOD_WAIT` re-raises
at once (no sleep); otherwise the policy sleeps `n + 1` seconds and retries;
exhaustion re-raises a flood error carrying the last wait. -/
def hfwGo {α : Type} (f : Nat → CallOutcome α) :
    Nat → Nat → List Nat → Nat → RetryRun α
  | 0, idx, sleeps, last => { result := Except.error last, sleeps := sleeps, calls := idx }
  | r + 1, idx, sleeps, _ =>
    match f idx with
    | CallOutcome.ok a => { result := Except.ok a, sleeps := sleeps, calls := idx + 1 }
    | CallOutcome.flood n =>
        if n > MAX_FLOOD_WAIT then
          { result := Except.error n, sleeps := sleeps, calls := idx + 1 }
        else hfwGo f r (idx + 1) (sleeps ++ [n + 1]) n

/-- `handle_flood_wait(max_retries)` applied to a call with invocation
outcomes `f`. -/
def handleFloodWait {α : Type} (max_retries : Nat) (f : Nat → CallOutcome α) :
    RetryRun α :=
  hfwGo f max_retries 0 [] 0

/-! ### Login short-circuit (`send_code`) -/

/-- The remote behaviour `send_code` can encounter for one credential. -/
inductive SendCodeEnv where
  | alreadyAuthorized
  | codeSent (phone_code_hash : String)
  | invalidPhone
  | floodWait (seconds : Nat)
  deriving DecidableEq

/-- Outcome of `send_code`: the `(success, message, phone_code_hash)` triple
plus whether `client.send_code_request` was invoked at all. -/
structure SendCodeRun where
  success : Bool
  message : String
  phone_code_hash : Option String
  requestedCode : Bool
  deriving DecidableEq

/-- `TelethonCore.send_code`: an already-authorized stored session
short-circuits to the `"ALREADY_AUTHORIZED"` marker without requesting a
login code. -/
def send_code (env : SendCodeEnv) : SendCodeRun :=
  match env with
  | SendCodeEnv.alreadyAuthorized =>
      { success := true, message := "ALREADY_AUTHORIZED",
        phone_code_hash := none, requestedCode := false }
  | SendCodeEnv.codeSent h =>
      { success := true, message := "Код отправлен",
        phone_code_hash := some h, requestedCode := true }
  | SendCodeEnv.invalidPhone =>
      { success := false,
        message := "Неверный формат номера телефона. Используйте формат: +79991234567",
        phone_code_hash := none, requestedCode := true }
  | SendCodeEnv.floodWait n =>
      { success := false,
        message := "Слишком много попыток. Подождите " ++ toString n ++ " секунд",
        phone_code_hash := none, requestedCode := true }

/-! ### Derived notions used by the statements -/

/-- A sender that reaches the create-or-increment step of `_process_user`:
a non-bot account other than the hidden operator. -/
def senderPass (adminId : Int) (s : Sender) : Prop :=
  s.bot = false ∧ s.id ≠ adminId

instance (adminId : Int) (s : Sender) : Decidable (senderPass adminId s) := by
  unfold senderPass; infer_instance

/-- The observation count stored for identity `k` (0 if not present). -/
def countVal (k : Int) (d : UsersDict) : Nat :=
  match lookup k d with
  | some u => u.message_count
  | none => 0

/-- The dict invariants maintained by every scan: unique keys, each record
stored under its own identity id, and the operator's id never present. -/
def DictInv (adminId : Int) (d : UsersDict) : Prop :=
  keysNodup d ∧ (∀ p ∈ d, (Prod.snd p).user_id = p.1) ∧ lookup adminId d = none

/-- The scan state carried by either branch of an iteration outcome. -/
def stateOf : ScanState ⊕ (ScanState × Nat) → ScanState
  | Sum.inl st => st
  | Sum.inr (st, _) => st

/-- The enrichment bookkeeping invariant of a scan state: the dict
invariants; the gender heuristic applied at most once per identity, always
leaving a non-empty tag; every performed bio fetch left the fetched text in
the stored record, so an identity whose profile has bio text is fetched at
most once. -/
def EnrichInv (cfg : ScanCfg) (st : ScanState) : Prop :=
  DictInv cfg.adminId st.users
  ∧ st.genderApplied.Nodup
  ∧ (∀ id ∈ st.genderApplied, ∃ u, lookup id st.users = some u ∧ optFalsy u.gender = false)
  ∧ (∀ id : Int, optFalsy (cfg.bioOf id) = false → st.bioFetches.count id ≤ 1)
  ∧ (∀ id ∈ st.bioFetches, ∃ u, lookup id st.users = some u ∧ u.bio = cfg.bioOf id)

/-! ### Concrete fixtures for witnesses and counterexamples -/

/-- A plain non-bot sender with id 1. -/
def wSender1 : Sender := { id := 1 }

/-- A plain non-bot sender with id 2. -/
def wSender2 : Sender := { id := 2 }

/-- A plain non-bot sender with id 3. -/
def wSender3 : Sender := { id := 3 }

/-- Two sightings of the same identity. -/
def c1wItems : List (Sender × Int) := [(wSender1, 5), (wSender1, 7)]

/-- The aggregate record those two sightings produce. -/
def c1wUser : ParsedUser := { user_id := 1, last_activity := some 7, message_count := 2 }

/-- A scan configuration with a cutoff at timestamp 8. -/
def cfgCutoff8 : ScanCfg := { adminId := 99, cutoff := some 8 }

/-- A scan configuration with no cutoff and no enrichment. -/
def cfgPlain : ScanCfg := { adminId := 99 }

/-- A scan configuration with bio enrichment over a profile store that has
no bio text for anyone. -/
def cfgBio : ScanCfg := { adminId := 99, parse_bio := true }

/-- A scan configuration with bio enrichment over a profile store where
everyone has the bio text "hi". -/
def cfgBioSome : ScanCfg := { adminId := 99, parse_bio := true, bioOf := fun _ => some "hi" }

/-- A post whose thread has one comment inside the cutoff followed by two
older ones. -/
def c2post : Post :=
  { date := 10, replies := 3,
    thread := [ThreadEv.comment { sender := some wSender1, date := 9 },
               ThreadEv.comment { sender := some wSender2, date := 5 },
               ThreadEv.comment { sender := some wSender3, date := 4 }] }

/-- A post whose thread hits a small flood wait between two comments. -/
def c6postA : Post :=
  { date := 10, replies := 2,
    thread := [ThreadEv.comment { sender := some wSender1, date := 9 },
               ThreadEv.flood 5,
               ThreadEv.comment { sender := some wSender2, date := 9 }] }

/-- A later post with one comment. -/
def c6postB : Post :=
  { date := 10, replies := 1,
    thread := [ThreadEv.comment { sender := some wSender3, date := 9 }] }

/-- A post whose thread hits a flood wait above the ceiling at once. -/
def c6postX : Post :=
  { date := 10, replies := 1, thread := [ThreadEv.flood 301] }

/-- The operator's own sender (id matching the configured admin id 99 of
the fixture configurations). -/
def sAdmin99 : Sender := { id := 99 }

/-- A post whose thread contains a comment by the operator and one by a
regular identity. -/
def c4post : Post :=
  { date := 10, replies := 2,
    thread := [ThreadEv.comment { sender := some sAdmin99, date := 9 },
               ThreadEv.comment { sender := some wSender1, date := 9 }] }

/-- A post with two comments by the same identity. -/
def c8post : Post :=
  { date := 10, replies := 2,
    thread := [ThreadEv.comment { sender := some wSender1, date := 9 },
               ThreadEv.comment { sender := some wSender1, date := 8 }] }

/-! ## Theorems -/

theorem lookup_append (k : Int) (d₁ d₂ : UsersDict) :
    lookup k (d₁ ++ d₂) =
      (match lookup k d₁ with
       | some u => some u
       | none => lookup k d₂) := by
  induction d₁ with
  | nil => simp [lookup]
  | cons p rest ih =>
      obtain ⟨k₀, u₀⟩ := p
      by_cases h : k₀ = k <;> simp [lookup, h, ih]

theorem lookup_replaceKey (k k₁ : Int) (u : ParsedUser) (d : UsersDict) :
    lookup k (replaceKey k₁ u d) =
      if k₁ = k then (lookup k d).map (fun _ => u) else lookup k d := by
  induction d with
  | nil => by_cases h : k₁ = k <;> simp [lookup, replaceKey, h]
  | cons p rest ih =>
      obtain ⟨k₀, u₀⟩ := p
      by_cases h₀ : k₀ = k₁
      · subst h₀
        by_cases h : k₀ = k
        · subst h
          simp [replaceKey, lookup]
        · simp [replaceKey, lookup, h, ih]
      · by_cases h : k₀ = k
        · subst h
          have h₁ : ¬ k₁ = k₀ := fun hh => h₀ hh.symm
          simp [replaceKey, h₀, lookup, h₁]
        · simp [replaceKey, h₀, lookup, h, ih]

theorem keys_replaceKey (k : Int) (u : ParsedUser) (d : UsersDict) :
    (replaceKey k u d).map Prod.fst = d.map Prod.fst := by
  induction d with
  | nil => rfl
  | cons p rest ih =>
      obtain ⟨k₀, u₀⟩ := p
      by_cases h₀ : k₀ = k <;> simp [replaceKey, h₀, ih]

theorem length_replaceKey (k : Int) (u : ParsedUser) (d : UsersDict) :
    (replaceKey k u d).length = d.length := by
  have h := congrArg List.length (keys_replaceKey k u d)
  simpa using h

theorem mem_replaceKey (p : Int × ParsedUser) (k : Int) (u : ParsedUser)
    (d : UsersDict) (h : p ∈ replaceKey k u d) : p = (k, u) ∨ p ∈ d := by
  induction d with
  | nil => simp [replaceKey] at h
  | cons q rest ih =>
      obtain ⟨k₀, u₀⟩ := q
      simp only [replaceKey] at h
      by_cases h₀ : k₀ = k
      · rw [if_pos h₀] at h
        rcases List.mem_cons.mp h with h₁ | h₁
        · subst h₀; exact Or.inl h₁
        · rcases ih h₁ with h₂ | h₂
          · exact Or.inl h₂
          · exact Or.inr (List.mem_cons_of_mem _ h₂)
      · rw [if_neg h₀] at h
        rcases List.mem_cons.mp h with h₁ | h₁
        · exact Or.inr (by simp [h₁])
        · rcases ih h₁ with h₂ | h₂
          · exact Or.inl h₂
          · exact Or.inr (List.mem_cons_of_mem _ h₂)

theorem lookup_eq_none_iff (k : Int) (d : UsersDict) :
    lookup k d = none ↔ k ∉ d.map Prod.fst := by
  induction d with
  | nil => simp [lookup]
  | cons p rest ih =>
      obtain ⟨k₀, u₀⟩ := p
      by_cases h : k₀ = k
      · subst h
        simp [lookup]
      · simp only [lookup, if_neg h, List.map_cons]
        rw [ih]
        constructor
        · intro hn hc
          rcases List.mem_cons.mp hc with he | hm
          · exact h he.symm
          · exact hn hm
        · intro hn hm
          exact hn (List.mem_cons_of_mem _ hm)

theorem lookup_mem (k : Int) (u : ParsedUser) (d : UsersDict)
    (h : lookup k d = some u) : (k, u) ∈ d := by
  induction d with
  | nil => simp [lookup] at h
  | cons p rest ih =>
      obtain ⟨k₀, u₀⟩ := p
      by_cases h₀ : k₀ = k
      · subst h₀
        simp [lookup] at h
        subst h
        exact List.mem_cons_self _ _
      · simp only [lookup, if_neg h₀] at h
        exact List.mem_cons_of_mem _ (ih h)

theorem processUserCore_not_pass (adminId : Int) (mkNew : Sender → Int → ParsedUser)
    (s : Sender) (t : Int) (d : UsersDict) (h : ¬ senderPass adminId s) :
    processUserCore adminId mkNew s t d = (none, d) := by
  unfold senderPass at h
  unfold processUserCore
  by_cases hb : s.bot = true
  · by_cases hi : s.id = adminId
    · simp [hb, hi]
    · simp [hb, hi]
  · have hb₁ : s.bot = false := by simpa using hb
    have hi : s.id = adminId := by
      by_contra hne
      exact h ⟨hb₁, hne⟩
    simp [hb, hi]

theorem processUserCore_pass_found (adminId : Int) (mkNew : Sender → Int → ParsedUser)
    (s : Sender) (t : Int) (d : UsersDict) (u : ParsedUser)
    (hp : senderPass adminId s) (hl : lookup s.id d = some u) :
    processUserCore adminId mkNew s t d =
      (some { u with message_count := u.message_count + 1,
                     last_activity := updateActivity u.last_activity t },
       replaceKey s.id
         { u with message_count := u.message_count + 1,
                  last_activity := updateActivity u.last_activity t } d) := by
  obtain ⟨hb, hi⟩ := hp
  unfold processUserCore
  rw [if_neg (by simp [hb]), if_neg hi, hl]

theorem processUserCore_pass_new (adminId : Int) (mkNew : Sender → Int → ParsedUser)
    (s : Sender) (t : Int) (d : UsersDict)
    (hp : senderPass adminId s) (hl : lookup s.id d = none) :
    processUserCore adminId mkNew s t d =
      (some (mkNew s t), d ++ [(s.id, mkNew s t)]) := by
  obtain ⟨hb, hi⟩ := hp
  unfold processUserCore
  rw [if_neg (by simp [hb]), if_neg hi, hl]

theorem processUserCore_length (adminId : Int) (mkNew : Sender → Int → ParsedUser)
    (s : Sender) (t : Int) (d : UsersDict) :
    (processUserCore adminId mkNew s t d).2.length ≤ d.length + 1 := by
  by_cases hp : senderPass adminId s
  · cases hl : lookup s.id d with
    | some u =>
        rw [processUserCore_pass_found adminId mkNew s t d u hp hl]
        simp [length_replaceKey]
    | none =>
        rw [processUserCore_pass_new adminId mkNew s t d hp hl]
        simp
  · rw [processUserCore_not_pass adminId mkNew s t d hp]
    simp

theorem processUserCore_keysNodup (adminId : Int) (mkNew : Sender → Int → ParsedUser)
    (s : Sender) (t : Int) (d : UsersDict) (h : keysNodup d) :
    keysNodup (processUserCore adminId mkNew s t d).2 := by
  by_cases hp : senderPass adminId s
  · cases hl : lookup s.id d with
    | some u =>
        rw [processUserCore_pass_found adminId mkNew s t d u hp hl]
        unfold keysNodup at h ⊢
        rwa [keys_replaceKey]
    | none =>
        rw [processUserCore_pass_new adminId mkNew s t d hp hl]
        unfold keysNodup at h ⊢
        simp only [List.map_append, List.map_cons, List.map_nil]
        rw [List.nodup_append]
        refine ⟨h, List.nodup_singleton _, ?_⟩
        intro x hx hx₂
        simp only [List.mem_singleton] at hx₂
        subst hx₂
        exact (lookup_eq_none_iff _ _).mp hl hx
  · rwa [processUserCore_not_pass adminId mkNew s t d hp]

theorem processUserCore_userId (adminId : Int) (mkNew : Sender → Int → ParsedUser)
    (s : Sender) (t : Int) (d : UsersDict)
    (hmk : ∀ s₁ t₁, (mkNew s₁ t₁).user_id = s₁.id)
    (h : ∀ p ∈ d, (Prod.snd p).user_id = p.1) :
    ∀ p ∈ (processUserCore adminId mkNew s t d).2, (Prod.snd p).user_id = p.1 := by
  by_cases hp : senderPass adminId s
  · cases hl : lookup s.id d with
    | some u =>
        rw [processUserCore_pass_found adminId mkNew s t d u hp hl]
        intro p hmem
        rcases mem_replaceKey p s.id _ d hmem with h₁ | h₁
        · subst h₁
          exact h (s.id, u) (lookup_mem s.id u d hl)
        · exact h p h₁
    | none =>
        rw [processUserCore_pass_new adminId mkNew s t d hp hl]
        intro p hmem
        rcases List.mem_append.mp hmem with h₁ | h₁
        · exact h p h₁
        · simp only [List.mem_singleton] at h₁
          subst h₁
          exact hmk s t
  · rw [processUserCore_not_pass adminId mkNew s t d hp]
    exact h

theorem processUserCore_admin_none (adminId : Int) (mkNew : Sender → Int → ParsedUser)
    (s : Sender) (t : Int) (d : UsersDict) (h : lookup adminId d = none) :
    lookup adminId (processUserCore adminId mkNew s t d).2 = none := by
  by_cases hp : senderPass adminId s
  · cases hl : lookup s.id d with
    | some u =>
        rw [processUserCore_pass_found adminId mkNew s t d u hp hl]
        rw [lookup_replaceKey, if_neg hp.2, h]
    | none =>
        rw [processUserCore_pass_new adminId mkNew s t d hp hl]
        rw [lookup_append, h]
        simp [lookup, hp.2]
  · rwa [processUserCore_not_pass adminId mkNew s t d hp]

theorem processUserCore_lookup_pres (adminId : Int) (mkNew : Sender → Int → ParsedUser)
    (s : Sender) (t : Int) (d : UsersDict) (k : Int) (v : ParsedUser)
    (hl : lookup k d = some v) :
    ∃ w, lookup k (processUserCore adminId mkNew s t d).2 = some w ∧
      w.bio = v.bio ∧ w.gender = v.gender ∧ w.user_id = v.user_id ∧ w.is_bot = v.is_bot := by
  by_cases hp : senderPass adminId s
  · cases hls : lookup s.id d with
    | some u =>
        rw [processUserCore_pass_found adminId mkNew s t d u hp hls]
        by_cases hk : s.id = k
        · subst hk
          rw [lookup_replaceKey, if_pos rfl, hl]
          have : u = v := by rw [hls] at hl; exact Option.some.inj hl
          subst this
          exact ⟨_, rfl, rfl, rfl, rfl, rfl⟩
        · rw [lookup_replaceKey, if_neg hk, hl]
          exact ⟨v, rfl, rfl, rfl, rfl, rfl⟩
    | none =>
        rw [processUserCore_pass_new adminId mkNew s t d hp hls]
        rw [lookup_append, hl]
        exact ⟨v, rfl, rfl, rfl, rfl, rfl⟩
  · rw [processUserCore_not_pass adminId mkNew s t d hp]
    exact ⟨v, hl, rfl, rfl, rfl, rfl⟩

theorem processUserCore_isSome (adminId : Int) (mkNew : Sender → Int → ParsedUser)
    (s : Sender) (t : Int) (d : UsersDict) (k : Int)
    (h : (lookup k d).isSome) :
    (lookup k (processUserCore adminId mkNew s t d).2).isSome := by
  rcases Option.isSome_iff_exists.mp h with ⟨v, hv⟩
  rcases processUserCore_lookup_pres adminId mkNew s t d k v hv with ⟨w, hw, -⟩
  exact hw ▸ rfl

theorem processUserCore_self_isSome (adminId : Int) (mkNew : Sender → Int → ParsedUser)
    (s : Sender) (t : Int) (d : UsersDict) (hp : senderPass adminId s) :
    (lookup s.id (processUserCore adminId mkNew s t d).2).isSome := by
  cases hl : lookup s.id d with
  | some u =>
      rw [processUserCore_pass_found adminId mkNew s t d u hp hl]
      rw [lookup_replaceKey, if_pos rfl, hl]
      rfl
  | none =>
      rw [processUserCore_pass_new adminId mkNew s t d hp hl]
      rw [lookup_append, hl]
      simp [lookup]

theorem processUserCore_countVal (adminId : Int) (mkNew : Sender → Int → ParsedUser)
    (s : Sender) (t : Int) (d : UsersDict) (k : Int)
    (hmk : ∀ s₁ t₁, (mkNew s₁ t₁).message_count = 1) :
    countVal k (processUserCore adminId mkNew s t d).2 =
      countVal k d + (if s.bot = false ∧ s.id ≠ adminId ∧ s.id = k then 1 else 0) := by
  by_cases hp : senderPass adminId s
  · cases hl : lookup s.id d with
    | some u =>
        rw [processUserCore_pass_found adminId mkNew s t d u hp hl]
        by_cases hk : s.id = k
        · subst hk
          unfold countVal
          rw [lookup_replaceKey, if_pos rfl, hl]
          simp [hp.1, hp.2]
        · unfold countVal
          rw [lookup_replaceKey, if_neg hk]
          simp [hk]
    | none =>
        rw [processUserCore_pass_new adminId mkNew s t d hp hl]
        by_cases hk : s.id = k
        · subst hk
          unfold countVal
          rw [lookup_append, hl]
          simp [lookup, hp.1, hp.2, hmk]
        · unfold countVal
          rw [lookup_append]
          cases hlk : lookup k d with
          | some v => simp [hk]
          | none => simp [lookup, hk]
  · rw [processUserCore_not_pass adminId mkNew s t d hp]
    have : ¬ (s.bot = false ∧ s.id ≠ adminId ∧ s.id = k) := by
      intro hc
      exact hp ⟨hc.1, hc.2.1⟩
    simp [this]

theorem foldProcess_length (adminId : Int) (mkNew : Sender → Int → ParsedUser)
    (items : List (Sender × Int)) :
    ∀ d, (foldProcess adminId mkNew d items).length ≤ d.length + items.length := by
  induction items with
  | nil => intro d; simp [foldProcess]
  | cons it rest ih =>
      intro d
      obtain ⟨s, t⟩ := it
      have h₁ := processUserCore_length adminId mkNew s t d
      have h₂ := ih (processUserCore adminId mkNew s t d).2
      simp only [foldProcess, List.length_cons]
      omega

theorem foldProcess_keysNodup (adminId : Int) (mkNew : Sender → Int → ParsedUser)
    (items : List (Sender × Int)) :
    ∀ d, keysNodup d → keysNodup (foldProcess adminId mkNew d items) := by
  induction items with
  | nil => intro d h; simpa [foldProcess] using h
  | cons it rest ih =>
      intro d h
      obtain ⟨s, t⟩ := it
      exact ih _ (processUserCore_keysNodup adminId mkNew s t d h)

theorem foldProcess_userId (adminId : Int) (mkNew : Sender → Int → ParsedUser)
    (items : List (Sender × Int))
    (hmk : ∀ s₁ t₁, (mkNew s₁ t₁).user_id = s₁.id) :
    ∀ d, (∀ p ∈ d, (Prod.snd p).user_id = p.1) →
      ∀ p ∈ foldProcess adminId mkNew d items, (Prod.snd p).user_id = p.1 := by
  induction items with
  | nil => intro d h; simpa [foldProcess] using h
  | cons it rest ih =>
      intro d h
      obtain ⟨s, t⟩ := it
      exact ih _ (processUserCore_userId adminId mkNew s t d hmk h)

theorem foldProcess_admin_none (adminId : Int) (mkNew : Sender → Int → ParsedUser)
    (items : List (Sender × Int)) :
    ∀ d, lookup adminId d = none →
      lookup adminId (foldProcess adminId mkNew d items) = none := by
  induction items with
  | nil => intro d h; simpa [foldProcess] using h
  | cons it rest ih =>
      intro d h
      obtain ⟨s, t⟩ := it
      exact ih _ (processUserCore_admin_none adminId mkNew s t d h)

theorem foldProcess_countVal (adminId : Int) (mkNew : Sender → Int → ParsedUser)
    (items : List (Sender × Int)) (k : Int)
    (hmk : ∀ s₁ t₁, (mkNew s₁ t₁).message_count = 1) :
    ∀ d, countVal k (foldProcess adminId mkNew d items) =
      countVal k d + attributedCount adminId k items := by
  induction items with
  | nil => intro d; simp [foldProcess, attributedCount]
  | cons it rest ih =>
      intro d
      obtain ⟨s, t⟩ := it
      have h₁ := processUserCore_countVal adminId mkNew s t d k hmk
      have h₂ := ih (processUserCore adminId mkNew s t d).2
      simp only [foldProcess, attributedCount]
      omega

theorem foldProcess_isSome (adminId : Int) (mkNew : Sender → Int → ParsedUser)
    (items : List (Sender × Int)) (k : Int) :
    ∀ d, (lookup k d).isSome → (lookup k (foldProcess adminId mkNew d items)).isSome := by
  induction items with
  | nil => intro d h; simpa [foldProcess] using h
  | cons it rest ih =>
      intro d h
      obtain ⟨s, t⟩ := it
      exact ih _ (processUserCore_isSome adminId mkNew s t d k h)

theorem foldProcess_mem_isSome (adminId : Int) (mkNew : Sender → Int → ParsedUser)
    (items : List (Sender × Int)) (s : Sender) (t : Int)
    (hmem : (s, t) ∈ items) (hp : senderPass adminId s) :
    ∀ d, (lookup s.id (foldProcess adminId mkNew d items)).isSome := by
  induction items with
  | nil => simp at hmem
  | cons it rest ih =>
      intro d
      rcases List.mem_cons.mp hmem with h | h
      · subst h
        simp only [foldProcess]
        exact foldProcess_isSome adminId mkNew rest s.id _
          (processUserCore_self_isSome adminId mkNew s t d hp)
      · obtain ⟨s₀, t₀⟩ := it
        exact ih h _

theorem valuesOf_userId_eq_keys (d : UsersDict)
    (hinv : ∀ p ∈ d, (Prod.snd p).user_id = p.1) :
    (valuesOf d).map ParsedUser.user_id = d.map Prod.fst := by
  induction d with
  | nil => rfl
  | cons p rest ih =>
      obtain ⟨k₀, u₀⟩ := p
      simp only [valuesOf, List.map_cons]
      have h₀ := hinv (k₀, u₀) (List.mem_cons_self _ _)
      rw [show (Prod.snd (k₀, u₀)).user_id = k₀ from h₀]
      have ih₁ := ih (fun p hp => hinv p (List.mem_cons_of_mem _ hp))
      simp only [valuesOf] at ih₁
      rw [ih₁]

theorem mem_userId_iff_lookup (d : UsersDict)
    (hinv : ∀ p ∈ d, (Prod.snd p).user_id = p.1) (k : Int) :
    k ∈ (valuesOf d).map ParsedUser.user_id ↔ (lookup k d).isSome := by
  rw [valuesOf_userId_eq_keys d hinv]
  constructor
  · intro h
    cases hl : lookup k d with
    | some u => rfl
    | none => exact absurd h ((lookup_eq_none_iff k d).mp hl)
  · intro h
    cases hl : lookup k d with
    | some u =>
        have := lookup_mem k u d hl
        exact List.mem_map.mpr ⟨(k, u), this, rfl⟩
    | none => rw [hl] at h; simp at h

/-- C1: the aggregator (`users_dict` as updated by `_process_user` and
`_process_user_extended`) maps each remote identity id to one record, so
each id occurs at most once among the records; the final identity count is
at most the number of items fed to it; and a stored record's
`message_count` equals the number of stream items attributed to that
identity (created at 1 on first sighting, `+1` per repeat sighting). -/
theorem c1_dedup_invariant (adminId : Int) (cfg : ScanCfg) (items : List (Sender × Int)) :
    (((valuesOf (foldProcess adminId mkBasicUser [] items)).map ParsedUser.user_id).Nodup
      ∧ (foldProcess adminId mkBasicUser [] items).length ≤ items.length
      ∧ ∀ k u, lookup k (foldProcess adminId mkBasicUser [] items) = some u →
          u.message_count = attributedCount adminId k items)
    ∧ (((valuesOf (foldProcess adminId (mkExtendedUser cfg) [] items)).map ParsedUser.user_id).Nodup
      ∧ (foldProcess adminId (mkExtendedUser cfg) [] items).length ≤ items.length
      ∧ ∀ k u, lookup k (foldProcess adminId (mkExtendedUser cfg) [] items) = some u →
          u.message_count = attributedCount adminId k items) := by
  have main : ∀ (mkNew : Sender → Int → ParsedUser),
      (∀ s₁ t₁, (mkNew s₁ t₁).user_id = s₁.id) →
      (∀ s₁ t₁, (mkNew s₁ t₁).message_count = 1) →
      ((valuesOf (foldProcess adminId mkNew [] items)).map ParsedUser.user_id).Nodup
        ∧ (foldProcess adminId mkNew [] items).length ≤ items.length
        ∧ ∀ k u, lookup k (foldProcess adminId mkNew [] items) = some u →
            u.message_count = attributedCount adminId k items := by
    intro mkNew hid hcnt
    have hinv := foldProcess_userId adminId mkNew items hid [] (by simp)
    refine ⟨?_, ?_, ?_⟩
    · rw [valuesOf_userId_eq_keys _ hinv]
      exact foldProcess_keysNodup adminId mkNew items [] (by simp [keysNodup])
    · simpa using foldProcess_length adminId mkNew items []
    · intro k u hu
      have h₁ := foldProcess_countVal adminId mkNew items k hcnt []
      rw [show countVal k ([] : UsersDict) = 0 from rfl] at h₁
      unfold countVal at h₁
      rw [hu] at h₁
      simpa using h₁
  exact ⟨main mkBasicUser (fun _ _ => rfl) (fun _ _ => rfl),
         main (mkExtendedUser cfg) (fun _ _ => rfl) (fun _ _ => rfl)⟩

/-- Witness for C1: two sightings of identity 1 produce one record with
observation count 2, and the id list is duplicate-free. -/
theorem c1_dedup_invariant_witness :
    c1wUser.message_count = attributedCount 99 1 c1wItems
      ∧ ((valuesOf (foldProcess 99 mkBasicUser [] c1wItems)).map ParsedUser.user_id).Nodup := by
  have h := c1_dedup_invariant 99 cfgPlain c1wItems
  exact ⟨h.1.2.2 1 c1wUser (by decide), h.1.1⟩

/-- C9: submitting a phone for a credential whose stored session is already
authorized succeeds with the literal `"ALREADY_AUTHORIZED"` marker, no
code-challenge token, and without requesting a login code. -/
theorem c9_already_authorized :
    send_code SendCodeEnv.alreadyAuthorized =
      { success := true, message := "ALREADY_AUTHORIZED",
        phone_code_hash := none, requestedCode := false } := rfl

theorem hfwGo_all_flood (α : Type) (f : Nat → CallOutcome α) (ns : Nat → Nat) :
    ∀ (r idx : Nat) (sleeps : List Nat) (last : Nat),
      (∀ i, idx ≤ i → i < idx + r → f i = CallOutcome.flood (ns i) ∧ ns i ≤ MAX_FLOOD_WAIT) →
      (hfwGo f r idx sleeps last).result =
          Except.error (if r = 0 then last else ns (idx + r - 1))
        ∧ (hfwGo f r idx sleeps last).calls = idx + r := by
  intro r
  induction r with
  | zero => intro idx sleeps last h; simp [hfwGo]
  | succ r ih =>
      intro idx sleeps last h
      have h₀ := h idx (Nat.le_refl _) (by omega)
      have hgt : ¬ ns idx > MAX_FLOOD_WAIT := by omega
      have ih₁ := ih (idx + 1) (sleeps ++ [ns idx + 1]) (ns idx)
        (fun i h₁ h₂ => h i (by omega) (by omega))
      simp only [hfwGo, h₀.1, if_neg hgt]
      rcases ih₁ with ⟨ihr, ihc⟩
      constructor
      · rw [ihr]
        by_cases hr : r = 0
        · subst hr; simp
        · rw [if_neg hr, if_neg (by omega : ¬ r + 1 = 0)]
          have harg : idx + 1 + r - 1 = idx + (r + 1) - 1 := by omega
          rw [harg]
      · rw [ihc]; omega

/-- C5: the `handle_flood_wait` retry policy — a mandated wait above the
300 s ceiling propagates the failure at once with no sleep; a wait at or
below the ceiling sleeps `N+1` seconds and retries the same call (which
then succeeds if the retry succeeds); if every attempt keeps flooding
within the ceiling, failure propagates once the bounded retry count is
exhausted. -/
theorem c5_flood_wait_policy (α : Type) (f : Nat → CallOutcome α) (max_retries : Nat)
    (ns : Nat → Nat) (hmr : 1 ≤ max_retries) :
    (∀ n, f 0 = CallOutcome.flood n → MAX_FLOOD_WAIT < n →
       handleFloodWait max_retries f =
         { result := Except.error n, sleeps := [], calls := 1 })
    ∧ (∀ n a, f 0 = CallOutcome.flood n → n ≤ MAX_FLOOD_WAIT →
        f 1 = CallOutcome.ok a → 2 ≤ max_retries →
       handleFloodWait max_retries f =
         { result := Except.ok a, sleeps := [n + 1], calls := 2 })
    ∧ ((∀ i, i < max_retries → f i = CallOutcome.flood (ns i) ∧ ns i ≤ MAX_FLOOD_WAIT) →
       (handleFloodWait max_retries f).result = Except.error (ns (max_retries - 1))
         ∧ (handleFloodWait max_retries f).calls = max_retries) := by
  refine ⟨?_, ?_, ?_⟩
  · intro n hf hn
    obtain ⟨r, rfl⟩ : ∃ r, max_retries = r + 1 := ⟨max_retries - 1, by omega⟩
    simp [handleFloodWait, hfwGo, hf, hn]
  · intro n a hf hn hf₁ h₂
    obtain ⟨r, rfl⟩ : ∃ r, max_retries = r + 2 := ⟨max_retries - 2, by omega⟩
    have hgt : ¬ n > MAX_FLOOD_WAIT := by omega
    simp [handleFloodWait, hfwGo, hf, hgt, hf₁]
  · intro h
    have h₁ := hfwGo_all_flood α f ns max_retries 0 [] 0
      (fun i hi₁ hi₂ => h i (by omega))
    rcases h₁ with ⟨hr, hc⟩
    refine ⟨?_, by simpa [handleFloodWait] using hc⟩
    rw [handleFloodWait, hr, if_neg (by omega : ¬ max_retries = 0)]
    have harg : 0 + max_retries - 1 = max_retries - 1 := by omega
    rw [harg]

/-- Witness for C5 at concrete simulations: a 301 s wait fails at once with
no sleep; a 10 s wait sleeps 11 s and the retried call succeeds. -/
theorem c5_flood_wait_policy_witness :
    handleFloodWait 3 (fun _ => (CallOutcome.flood 301 : CallOutcome Nat)) =
      { result := Except.error 301, sleeps := [], calls := 1 }
    ∧ handleFloodWait 3
        (fun i => if i = 0 then (CallOutcome.flood 10 : CallOutcome Nat) else CallOutcome.ok 7) =
      { result := Except.ok 7, sleeps := [11], calls := 2 } := by
  refine ⟨?_, ?_⟩
  · have h := c5_flood_wait_policy Nat (fun _ => CallOutcome.flood 301) 3 (fun _ => 301)
      (by decide)
    exact h.1 301 rfl (by decide)
  · have h := c5_flood_wait_policy Nat
      (fun i => if i = 0 then CallOutcome.flood 10 else CallOutcome.ok 7) 3 (fun _ => 10)
      (by decide)
    exact h.2.1 10 7 rfl (by decide) rfl (by decide)

theorem male_names_not_female :
    ∀ x ∈ maleNames ++ maleExceptions, x ∉ femaleNames := by
  have h : (maleNames ++ maleExceptions).all
      (fun n => !(decide (n ∈ femaleNames))) = true := by decide
  intro x hx
  have h₂ := List.all_eq_true.mp h x hx
  simpa using h₂

theorem detectGender_cases (fn : Option String) :
    detectGender fn = "M" ∨ detectGender fn = "F" ∨ detectGender fn = "неизвестно" := by
  match fn with
  | none => exact Or.inr (Or.inr rfl)
  | some s =>
      by_cases h : s = ""
      · simp [detectGender, h]
      · simp only [detectGender, if_neg h]
        split_ifs <;>
          first
            | exact Or.inl rfl
            | exact Or.inr (Or.inl rfl)

theorem detectGender_ne_empty (fn : Option String) : detectGender fn ≠ "" := by
  rcases detectGender_cases fn with h | h | h <;> rw [h] <;> decide

/-- C10: `_detect_gender` is total with range exactly
`{"M", "F", "неизвестно"}`; it yields `"неизвестно"` iff the input is
`None` or the empty string (a whitespace-only name strips to nothing,
matches no table or suffix, and falls through to the default `"M"`); a
(normalized) name on the explicit female table yields `"F"`, and one on the
explicit male table or the male-exception table yields `"M"`, regardless of
its suffix. -/
theorem c10_detect_gender :
    (∀ fn, detectGender fn = "M" ∨ detectGender fn = "F" ∨ detectGender fn = "неизвестно")
    ∧ (∀ fn, detectGender fn = "неизвестно" ↔ (fn = none ∨ fn = some ""))
    ∧ detectGender (some " ") = "M"
    ∧ (∀ s, s ≠ "" → pyLower (pyStrip s) ∈ femaleNames → detectGender (some s) = "F")
    ∧ (∀ s, s ≠ "" →
        (pyLower (pyStrip s) ∈ maleNames ∨ pyLower (pyStrip s) ∈ maleExceptions) →
        detectGender (some s) = "M") := by
  refine ⟨detectGender_cases, ?_, by decide, ?_, ?_⟩
  · intro fn
    constructor
    · intro h
      match fn with
      | none => exact Or.inl rfl
      | some s =>
          refine Or.inr ?_
          by_cases hs : s = ""
          · rw [hs]
          · exfalso
            simp only [detectGender, if_neg hs] at h
            revert h
            split_ifs <;> intro h <;> exact absurd h (by decide)
    · intro h
      rcases h with h | h <;> subst h <;> rfl
  · intro s hs hmem
    simp only [detectGender, if_neg hs]
    rw [if_pos hmem]
  · intro s hs hmem
    have hnf : pyLower (pyStrip s) ∉ femaleNames := by
      apply male_names_not_female
      rcases hmem with h | h
      · exact List.mem_append.mpr (Or.inl h)
      · exact List.mem_append.mpr (Or.inr h)
    simp only [detectGender, if_neg hs]
    rw [if_neg hnf, if_pos hmem]

/-- Witness for C10: a female-table name (with an upper-case letter) yields
`"F"`, a male-exception name ending in a female suffix yields `"M"`. -/
theorem c10_detect_gender_witness :
    detectGender (some "Мария") = "F" ∧ detectGender (some "никита") = "M" := by
  have h := c10_detect_gender
  exact ⟨h.2.2.2.1 "Мария" (by decide) (by decide),
         h.2.2.2.2 "никита" (by decide) (Or.inr (by decide))⟩

theorem enrichGender_fields (cfg : ScanCfg) (u : ParsedUser) :
    (enrichGender cfg u).user_id = u.user_id ∧ (enrichGender cfg u).bio = u.bio
    ∧ (enrichGender cfg u).is_bot = u.is_bot
    ∧ (enrichGender cfg u).message_count = u.message_count := by
  unfold enrichGender
  split_ifs <;> exact ⟨rfl, rfl, rfl, rfl⟩

theorem enrichBio_fields (cfg : ScanCfg) (u : ParsedUser) :
    (enrichBio cfg u).user_id = u.user_id ∧ (enrichBio cfg u).gender = u.gender
    ∧ (enrichBio cfg u).is_bot = u.is_bot
    ∧ (enrichBio cfg u).message_count = u.message_count := by
  unfold enrichBio
  split_ifs <;> exact ⟨rfl, rfl, rfl, rfl⟩

theorem process_user_none (adminId : Int) (s : Sender) (t : Int) (d d₂ : UsersDict)
    (h : process_user adminId s t d = (none, d₂)) : d₂ = d := by
  by_cases hp : senderPass adminId s
  · cases hl : lookup s.id d with
    | some v =>
        rw [process_user, processUserCore_pass_found adminId mkBasicUser s t d v hp hl] at h
        exact absurd (congrArg Prod.fst h) (by simp)
    | none =>
        rw [process_user, processUserCore_pass_new adminId mkBasicUser s t d hp hl] at h
        exact absurd (congrArg Prod.fst h) (by simp)
  · rw [process_user, processUserCore_not_pass adminId mkBasicUser s t d hp] at h
    exact (congrArg Prod.snd h).symm

theorem process_user_some (adminId : Int) (s : Sender) (t : Int) (d : UsersDict)
    (u : ParsedUser) (d₂ : UsersDict) (h : process_user adminId s t d = (some u, d₂)) :
    senderPass adminId s ∧ lookup s.id d₂ = some u
      ∧ d₂ = (processUserCore adminId mkBasicUser s t d).2 := by
  have hd₂ : d₂ = (processUserCore adminId mkBasicUser s t d).2 :=
    (congrArg Prod.snd h).symm
  by_cases hp : senderPass adminId s
  · refine ⟨hp, ?_, hd₂⟩
    cases hl : lookup s.id d with
    | some v =>
        rw [process_user, processUserCore_pass_found adminId mkBasicUser s t d v hp hl] at h
        have h₁ := congrArg Prod.fst h
        have h₂ := congrArg Prod.snd h
        simp only at h₁ h₂
        rw [← h₂, ← Option.some.inj h₁, lookup_replaceKey, if_pos rfl, hl]
        rfl
    | none =>
        rw [process_user, processUserCore_pass_new adminId mkBasicUser s t d hp hl] at h
        have h₁ := congrArg Prod.fst h
        have h₂ := congrArg Prod.snd h
        simp only at h₁ h₂
        rw [← h₂, ← Option.some.inj h₁, lookup_append, hl]
        simp [lookup]
  · rw [process_user, processUserCore_not_pass adminId mkBasicUser s t d hp] at h
    exact absurd (congrArg Prod.fst h) (by simp)

theorem handleSenderItem_cases (cfg : ScanCfg) (st : ScanState) (sender : Option Sender)
    (date : Int) (text : String) :
    handleSenderItem cfg st sender date text = st
    ∨ (∃ s u d, sender = some s ∧ process_user cfg.adminId s date st.users = (some u, d) ∧
        ((u.is_bot = true ∧ handleSenderItem cfg st sender date text = { st with users := d })
         ∨ (u.is_bot = false ∧ handleSenderItem cfg st sender date text =
            { st with users := replaceKey u.user_id (enrichBio cfg (enrichGender cfg u)) d,
                      raw := st.raw ++ [mkRaw (enrichBio cfg (enrichGender cfg u)) text date],
                      genderApplied := st.genderApplied ++ genderTrace cfg u,
                      bioFetches := st.bioFetches ++ bioTrace cfg u }))) := by
  cases sender with
  | none => exact Or.inl rfl
  | some s =>
      cases hpu : process_user cfg.adminId s date st.users with
      | mk o d =>
          cases o with
          | none =>
              left
              have hd := process_user_none cfg.adminId s date st.users d hpu
              subst hd
              simp only [handleSenderItem, hpu]
          | some u =>
              right
              refine ⟨s, u, d, rfl, hpu, ?_⟩
              by_cases hb : u.is_bot = true
              · left
                refine ⟨hb, ?_⟩
                simp only [handleSenderItem, hpu, enrichUser]
                rw [if_pos hb]
              · right
                refine ⟨by simpa using hb, ?_⟩
                simp only [handleSenderItem, hpu, enrichUser]
                rw [if_neg hb]

theorem handleSenderItem_traceFields (cfg : ScanCfg) (st : ScanState)
    (sender : Option Sender) (date : Int) (text : String) :
    (handleSenderItem cfg st sender date text).itemsScanned = st.itemsScanned
    ∧ (handleSenderItem cfg st sender date text).commentsVisited = st.commentsVisited
    ∧ (handleSenderItem cfg st sender date text).sleeps = st.sleeps := by
  rcases handleSenderItem_cases cfg st sender date text with h | ⟨s, u, d, hs, hpu, h | h⟩
  · rw [h]; exact ⟨rfl, rfl, rfl⟩
  · rw [h.2]; exact ⟨rfl, rfl, rfl⟩
  · rw [h.2]; exact ⟨rfl, rfl, rfl⟩

theorem handleSenderItem_raw (cfg : ScanCfg) (st : ScanState) (sender : Option Sender)
    (date : Int) (text : String) :
    ∀ rm ∈ (handleSenderItem cfg st sender date text).raw, rm ∈ st.raw ∨ rm.date = date := by
  rcases handleSenderItem_cases cfg st sender date text with h | ⟨s, u, d, hs, hpu, h | h⟩
  · rw [h]; exact fun rm hrm => Or.inl hrm
  · rw [h.2]; exact fun rm hrm => Or.inl hrm
  · rw [h.2]
    intro rm hrm
    rcases List.mem_append.mp hrm with h₁ | h₁
    · exact Or.inl h₁
    · simp only [List.mem_singleton] at h₁
      subst h₁
      exact Or.inr rfl

theorem replaceKey_isSome (k k₁ : Int) (u : ParsedUser) (d : UsersDict) :
    (lookup k (replaceKey k₁ u d)).isSome = (lookup k d).isSome := by
  rw [lookup_replaceKey]
  by_cases h : k₁ = k
  · rw [if_pos h]
    cases lookup k d <;> rfl
  · rw [if_neg h]

theorem replaceKey_DictInv (adminId : Int) (k : Int) (u : ParsedUser) (d : UsersDict)
    (hu : u.user_id = k) (h : DictInv adminId d) : DictInv adminId (replaceKey k u d) := by
  obtain ⟨h₁, h₂, h₃⟩ := h
  refine ⟨?_, ?_, ?_⟩
  · unfold keysNodup at h₁ ⊢
    rwa [keys_replaceKey]
  · intro p hp
    rcases mem_replaceKey p k u d hp with he | he
    · subst he; exact hu
    · exact h₂ p he
  · rw [lookup_replaceKey]
    by_cases hk : k = adminId
    · rw [if_pos hk, h₃]; rfl
    · rw [if_neg hk, h₃]

theorem processUserCore_DictInv (adminId : Int) (mkNew : Sender → Int → ParsedUser)
    (s : Sender) (t : Int) (d : UsersDict)
    (hmk : ∀ s₁ t₁, (mkNew s₁ t₁).user_id = s₁.id)
    (h : DictInv adminId d) : DictInv adminId (processUserCore adminId mkNew s t d).2 :=
  ⟨processUserCore_keysNodup adminId mkNew s t d h.1,
   processUserCore_userId adminId mkNew s t d hmk h.2.1,
   processUserCore_admin_none adminId mkNew s t d h.2.2⟩

theorem handleSenderItem_DictInv (cfg : ScanCfg) (st : ScanState)
    (sender : Option Sender) (date : Int) (text : String)
    (h : DictInv cfg.adminId st.users) :
    DictInv cfg.adminId (handleSenderItem cfg st sender date text).users := by
  rcases handleSenderItem_cases cfg st sender date text with he | ⟨s, u, d, hs, hpu, he | he⟩
  · rwa [he]
  · rw [he.2]
    have hd := (process_user_some cfg.adminId s date st.users u d hpu).2.2
    rw [show ({ st with users := d } : ScanState).users = d from rfl, hd]
    exact processUserCore_DictInv cfg.adminId mkBasicUser s date st.users (fun _ _ => rfl) h
  · rw [he.2]
    obtain ⟨hp, hl, hd⟩ := process_user_some cfg.adminId s date st.users u d hpu
    have hinvd : DictInv cfg.adminId d := by
      rw [hd]
      exact processUserCore_DictInv cfg.adminId mkBasicUser s date st.users (fun _ _ => rfl) h
    have huid : u.user_id = s.id := hinvd.2.1 (s.id, u) (lookup_mem s.id u d hl)
    apply replaceKey_DictInv
    · rw [(enrichBio_fields cfg (enrichGender cfg u)).1, (enrichGender_fields cfg u).1]
    · exact hinvd

theorem stepComment_traceFields (cfg : ScanCfg) (st : ScanState) (c : Comment) :
    (stepComment cfg st c).commentsVisited = st.commentsVisited + 1
    ∧ (stepComment cfg st c).itemsScanned = st.itemsScanned
    ∧ (stepComment cfg st c).sleeps = st.sleeps := by
  simp only [stepComment]
  by_cases h : olderThanCutoff cfg.cutoff c.date = true
  · rw [if_pos h]; exact ⟨rfl, rfl, rfl⟩
  · rw [if_neg h]
    have ht := handleSenderItem_traceFields cfg
      { st with commentsVisited := st.commentsVisited + 1 } c.sender c.date c.text
    exact ⟨ht.2.1, ht.1, ht.2.2⟩

theorem stepComment_DictInv (cfg : ScanCfg) (st : ScanState) (c : Comment)
    (h : DictInv cfg.adminId st.users) :
    DictInv cfg.adminId (stepComment cfg st c).users := by
  simp only [stepComment]
  by_cases hc : olderThanCutoff cfg.cutoff c.date = true
  · rwa [if_pos hc]
  · rw [if_neg hc]
    exact handleSenderItem_DictInv cfg _ c.sender c.date c.text h

theorem commentsFold_traceFields (cfg : ScanCfg) (cs : List Comment) :
    ∀ st : ScanState, (commentsFold cfg st cs).commentsVisited = st.commentsVisited + cs.length
      ∧ (commentsFold cfg st cs).itemsScanned = st.itemsScanned
      ∧ (commentsFold cfg st cs).sleeps = st.sleeps := by
  induction cs with
  | nil => intro st; exact ⟨rfl, rfl, rfl⟩
  | cons c rest ih =>
      intro st
      have h₁ := stepComment_traceFields cfg st c
      have h₂ := ih (stepComment cfg st c)
      have e : commentsFold cfg st (c :: rest) = commentsFold cfg (stepComment cfg st c) rest := rfl
      rw [e]
      refine ⟨?_, ?_, ?_⟩
      · rw [h₂.1, h₁.1, List.length_cons]; omega
      · rw [h₂.2.1, h₁.2.1]
      · rw [h₂.2.2, h₁.2.2]

theorem commentsFold_DictInv (cfg : ScanCfg) (cs : List Comment) :
    ∀ st : ScanState, DictInv cfg.adminId st.users →
      DictInv cfg.adminId (commentsFold cfg st cs).users := by
  induction cs with
  | nil => intro st h; exact h
  | cons c rest ih =>
      intro st h
      exact ih (stepComment cfg st c) (stepComment_DictInv cfg st c h)

theorem iterThread_comments (cfg : ScanCfg) (cs : List Comment) :
    ∀ st : ScanState,
      iterThread cfg st (cs.map ThreadEv.comment) = Sum.inl (commentsFold cfg st cs) := by
  induction cs with
  | nil => intro st; rfl
  | cons c rest ih =>
      intro st
      exact ih (stepComment cfg st c)

theorem iterThread_flood (cfg : ScanCfg) (cs : List Comment) (n : Nat) (tail : List ThreadEv) :
    ∀ st : ScanState,
      iterThread cfg st (cs.map ThreadEv.comment ++ ThreadEv.flood n :: tail) =
        Sum.inr (commentsFold cfg st cs, n) := by
  induction cs with
  | nil => intro st; rfl
  | cons c rest ih =>
      intro st
      exact ih (stepComment cfg st c)

theorem iterThread_DictInv (cfg : ScanCfg) (evs : List ThreadEv) :
    ∀ st : ScanState, DictInv cfg.adminId st.users →
      DictInv cfg.adminId (stateOf (iterThread cfg st evs)).users := by
  induction evs with
  | nil => intro st h; exact h
  | cons ev rest ih =>
      intro st h
      cases ev with
      | comment c => exact ih (stepComment cfg st c) (stepComment_DictInv cfg st c h)
      | flood n => exact h

theorem runPost_DictInv (cfg : ScanCfg) (p : Post) (st : ScanState)
    (h : DictInv cfg.adminId st.users) :
    DictInv cfg.adminId (stateOf (runPost cfg st p)).users := by
  unfold runPost
  by_cases hr : 0 < p.replies
  · rw [if_pos hr]
    have hthread := iterThread_DictInv cfg p.thread st h
    cases hit : iterThread cfg st p.thread with
    | inl st₂ =>
        rw [hit] at hthread
        exact hthread
    | inr e =>
        obtain ⟨st₂, n⟩ := e
        rw [hit] at hthread
        show DictInv cfg.adminId (stateOf (if n ≤ MAX_FLOOD_WAIT then
          Sum.inl { st₂ with sleeps := st₂.sleeps ++ [n + 1] } else Sum.inr (st₂, n))).users
        by_cases hn : n ≤ MAX_FLOOD_WAIT
        · rw [if_pos hn]
          exact hthread
        · rw [if_neg hn]
          exact hthread
  · rw [if_neg hr]
    exact h

theorem iterPosts_DictInv (cfg : ScanCfg) (posts : List Post) :
    ∀ st : ScanState, DictInv cfg.adminId st.users →
      DictInv cfg.adminId (stateOf (iterPosts cfg st posts)).users := by
  induction posts with
  | nil => intro st h; exact h
  | cons p rest ih =>
      intro st h
      simp only [iterPosts]
      by_cases hc : olderThanCutoff cfg.cutoff p.date = true
      · rw [if_pos hc]
        exact h
      · rw [if_neg hc]
        have hrp := runPost_DictInv cfg p { st with itemsScanned := st.itemsScanned + 1 } h
        cases hrun : runPost cfg { st with itemsScanned := st.itemsScanned + 1 } p with
        | inl st₂ =>
            rw [hrun] at hrp
            exact ih st₂ hrp
        | inr e =>
            obtain ⟨st₂, n⟩ := e
            rw [hrun] at hrp
            exact hrp

theorem iterChatMsgs_stop (cfg : ScanCfg) (cv : Int) (hc : cfg.cutoff = some cv)
    (old : ChatMsg) (hold : old.date < cv) :
    ∀ (pre : List ChatMsg) (rest : List ChatMsg) (st : ScanState),
      iterChatMsgs cfg st (pre ++ old :: rest) = iterChatMsgs cfg st (pre ++ [old]) := by
  intro pre
  induction pre with
  | nil =>
      intro rest st
      have ho : olderThanCutoff cfg.cutoff old.date = true := by
        rw [hc]; simpa [olderThanCutoff] using hold
      simp only [List.nil_append, iterChatMsgs, if_pos ho]
  | cons m pre ih =>
      intro rest st
      simp only [List.cons_append, iterChatMsgs]
      by_cases hm : olderThanCutoff cfg.cutoff m.date = true
      · rw [if_pos hm, if_pos hm]
      · rw [if_neg hm, if_neg hm]
        exact ih rest _

theorem iterPosts_stop (cfg : ScanCfg) (cv : Int) (hc : cfg.cutoff = some cv)
    (old : Post) (hold : old.date < cv) :
    ∀ (pre : List Post) (rest : List Post) (st : ScanState),
      iterPosts cfg st (pre ++ old :: rest) = iterPosts cfg st (pre ++ [old]) := by
  intro pre
  induction pre with
  | nil =>
      intro rest st
      have ho : olderThanCutoff cfg.cutoff old.date = true := by
        rw [hc]; simpa [olderThanCutoff] using hold
      simp only [List.nil_append, iterPosts, if_pos ho]
  | cons p pre ih =>
      intro rest st
      simp only [List.cons_append, iterPosts]
      by_cases hp : olderThanCutoff cfg.cutoff p.date = true
      · rw [if_pos hp, if_pos hp]
      · rw [if_neg hp, if_neg hp]
        cases hrun : runPost cfg { st with itemsScanned := st.itemsScanned + 1 } p with
        | inl st₂ => exact ih rest st₂
        | inr e => rfl

theorem stepComment_rawBound (cfg : ScanCfg) (cv : Int) (hc : cfg.cutoff = some cv)
    (st : ScanState) (c : Comment) (h : ∀ rm ∈ st.raw, cv ≤ rm.date) :
    ∀ rm ∈ (stepComment cfg st c).raw, cv ≤ rm.date := by
  simp only [stepComment]
  by_cases ho : olderThanCutoff cfg.cutoff c.date = true
  · rw [if_pos ho]; exact h
  · rw [if_neg ho]
    intro rm hrm
    rcases handleSenderItem_raw cfg _ c.sender c.date c.text rm hrm with h₁ | h₁
    · exact h rm h₁
    · rw [h₁]
      have hno : ¬ (c.date < cv) := by
        intro hlt
        apply ho
        rw [hc]
        simpa [olderThanCutoff] using hlt
      omega

theorem iterThread_rawBound (cfg : ScanCfg) (cv : Int) (hc : cfg.cutoff = some cv)
    (evs : List ThreadEv) :
    ∀ st : ScanState, (∀ rm ∈ st.raw, cv ≤ rm.date) →
      ∀ rm ∈ (stateOf (iterThread cfg st evs)).raw, cv ≤ rm.date := by
  induction evs with
  | nil => intro st h; exact h
  | cons ev rest ih =>
      intro st h
      cases ev with
      | comment c => exact ih (stepComment cfg st c) (stepComment_rawBound cfg cv hc st c h)
      | flood n => exact h

theorem runPost_rawBound (cfg : ScanCfg) (cv : Int) (hc : cfg.cutoff = some cv)
    (p : Post) (st : ScanState) (h : ∀ rm ∈ st.raw, cv ≤ rm.date) :
    ∀ rm ∈ (stateOf (runPost cfg st p)).raw, cv ≤ rm.date := by
  unfold runPost
  by_cases hr : 0 < p.replies
  · rw [if_pos hr]
    have hthread := iterThread_rawBound cfg cv hc p.thread st h
    cases hit : iterThread cfg st p.thread with
    | inl st₂ =>
        rw [hit] at hthread
        exact hthread
    | inr e =>
        obtain ⟨st₂, n⟩ := e
        rw [hit] at hthread
        show ∀ rm ∈ (stateOf (if n ≤ MAX_FLOOD_WAIT then
          Sum.inl { st₂ with sleeps := st₂.sleeps ++ [n + 1] } else Sum.inr (st₂, n))).raw,
          cv ≤ rm.date
        by_cases hn : n ≤ MAX_FLOOD_WAIT
        · rw [if_pos hn]; exact hthread
        · rw [if_neg hn]; exact hthread
  · rw [if_neg hr]
    exact h

theorem iterPosts_rawBound (cfg : ScanCfg) (cv : Int) (hc : cfg.cutoff = some cv)
    (posts : List Post) :
    ∀ st : ScanState, (∀ rm ∈ st.raw, cv ≤ rm.date) →
      ∀ rm ∈ (stateOf (iterPosts cfg st posts)).raw, cv ≤ rm.date := by
  induction posts with
  | nil => intro st h; exact h
  | cons p rest ih =>
      intro st h
      simp only [iterPosts]
      by_cases hp : olderThanCutoff cfg.cutoff p.date = true
      · rw [if_pos hp]
        exact h
      · rw [if_neg hp]
        have hrp := runPost_rawBound cfg cv hc p { st with itemsScanned := st.itemsScanned + 1 } h
        cases hrun : runPost cfg { st with itemsScanned := st.itemsScanned + 1 } p with
        | inl st₂ =>
            rw [hrun] at hrp
            exact ih st₂ hrp
        | inr e =>
            obtain ⟨st₂, n⟩ := e
            rw [hrun] at hrp
            exact hrp

theorem parseChannelComments_raw_eq (cfg : ScanCfg) (adminParts : List Sender)
    (posts : List Post) (title : String) :
    (parseChannelComments cfg adminParts posts title).result.raw_messages =
      (stateOf (iterPosts cfg {} posts)).raw := by
  unfold parseChannelComments
  cases hrun : iterPosts cfg ({} : ScanState) posts with
  | inl st => rfl
  | inr e =>
      obtain ⟨st, n⟩ := e
      show (if n ≤ MAX_FLOOD_WAIT then _ else _ : ChannelRun).result.raw_messages = _
      by_cases hn : n ≤ MAX_FLOOD_WAIT
      · rw [if_pos hn]; rfl
      · rw [if_neg hn]; rfl

/-- C2 counterexample: with a cutoff at 8 and a thread of comments at
timestamps 9, 5, 4 (strictly decreasing), the code visits all 3 comments of
the reply thread — iteration does not stop at the first comment older than
the cutoff (stopping there would visit at most 2). -/
theorem c2_counterexample :
    (parseChannelComments cfgCutoff8 [] [c2post] "t").commentsVisited = 3
    ∧ ¬ ((parseChannelComments cfgCutoff8 [] [c2post] "t").commentsVisited ≤ 2) := by
  constructor
  · rfl
  · intro h
    have he : (parseChannelComments cfgCutoff8 [] [c2post] "t").commentsVisited = 3 := rfl
    rw [he] at h
    omega

/-- C2 amended: with a cutoff configured, (a) the chat-by-activity message
loop and (b) the posts loop stop entirely at the first item older than the
cutoff — items beyond it are never fetched; (c) within a reply thread,
older comments are skipped individually and the loop still visits every
comment of the thread; (d) in both strategies no item older than the cutoff
contributes a raw observation. -/
theorem c2_cutoff_amended (cfg : ScanCfg) (cv : Int) (hc : cfg.cutoff = some cv)
    (adminParts : List Sender) (title : String) :
    (∀ (pre rest : List ChatMsg) (old : ChatMsg), old.date < cv →
       parseChatMembers cfg adminParts (pre ++ old :: rest) title
         = parseChatMembers cfg adminParts (pre ++ [old]) title)
    ∧ (∀ (pre rest : List Post) (old : Post), old.date < cv →
       parseChannelComments cfg adminParts (pre ++ old :: rest) title
         = parseChannelComments cfg adminParts (pre ++ [old]) title)
    ∧ (∀ (st : ScanState) (cs : List Comment), ∃ st₂,
       iterThread cfg st (cs.map ThreadEv.comment) = Sum.inl st₂
         ∧ st₂.commentsVisited = st.commentsVisited + cs.length)
    ∧ (∀ (posts : List Post) rm,
        rm ∈ (parseChannelComments cfg adminParts posts title).result.raw_messages →
        cv ≤ rm.date)
    ∧ (∀ (msgs : List ChatMsg) rm,
        rm ∈ (parseChatMembers cfg adminParts msgs title).result.raw_messages →
        cv ≤ rm.date) := by
  refine ⟨?_, ?_, ?_, ?_, ?_⟩
  · intro pre rest old hold
    unfold parseChatMembers
    rw [iterChatMsgs_stop cfg cv hc old hold pre rest]
  · intro pre rest old hold
    unfold parseChannelComments
    rw [iterPosts_stop cfg cv hc old hold pre rest]
  · intro st cs
    exact ⟨commentsFold cfg st cs, iterThread_comments cfg cs st,
           (commentsFold_traceFields cfg cs st).1⟩
  · intro posts rm hrm
    rw [parseChannelComments_raw_eq] at hrm
    exact iterPosts_rawBound cfg cv hc posts {} (by simp) rm hrm
  · intro msgs rm hrm
    have he : (parseChatMembers cfg adminParts msgs title).result.raw_messages =
        (iterChatMsgs cfg {} msgs).raw := rfl
    rw [he] at hrm
    revert rm hrm
    have main : ∀ (msgs : List ChatMsg) (st : ScanState),
        (∀ rm ∈ st.raw, cv ≤ rm.date) →
        ∀ rm ∈ (iterChatMsgs cfg st msgs).raw, cv ≤ rm.date := by
      intro msgs
      induction msgs with
      | nil => intro st h; exact h
      | cons m rest ih =>
          intro st h
          simp only [iterChatMsgs]
          by_cases hm : olderThanCutoff cfg.cutoff m.date = true
          · rw [if_pos hm]
            exact h
          · rw [if_neg hm]
            apply ih
            intro rm hrm
            rcases handleSenderItem_raw cfg _ m.sender m.date m.text rm hrm with h₁ | h₁
            · exact h rm h₁
            · rw [h₁]
              have hno : ¬ (m.date < cv) := by
                intro hlt
                apply hm
                rw [hc]
                simpa [olderThanCutoff] using hlt
              omega
    exact main msgs {} (by simp)

/-- Witness for C2 amended: concrete instances of the prefix-stop equality
and a raw-observation date bound. -/
theorem c2_cutoff_amended_witness :
    parseChatMembers cfgCutoff8 []
        [{ sender := some wSender1, date := 5 }, { sender := some wSender2, date := 9 }] "t"
      = parseChatMembers cfgCutoff8 [] [{ sender := some wSender1, date := 5 }] "t"
    ∧ (∀ rm ∈ (parseChannelComments cfgCutoff8 [] [c2post] "t").result.raw_messages,
        (8 : Int) ≤ rm.date) := by
  have h := c2_cutoff_amended cfgCutoff8 8 rfl [] "t"
  refine ⟨?_, fun rm hrm => h.2.2.2.1 [c2post] rm hrm⟩
  have h₁ := h.1 [] [{ sender := some wSender2, date := 9 }]
    { sender := some wSender1, date := 5 } (by decide)
  simpa using h₁

theorem DictInv_nil (adminId : Int) : DictInv adminId [] :=
  ⟨List.nodup_nil, by simp, rfl⟩

theorem process_user_pass_some (adminId : Int) (s : Sender) (t : Int) (d : UsersDict)
    (hp : senderPass adminId s) : (process_user adminId s t d).1.isSome := by
  cases hl : lookup s.id d with
  | some v =>
      rw [process_user, processUserCore_pass_found adminId mkBasicUser s t d v hp hl]
      rfl
  | none =>
      rw [process_user, processUserCore_pass_new adminId mkBasicUser s t d hp hl]
      rfl

theorem handleSenderItem_self_isSome (cfg : ScanCfg) (st : ScanState) (s : Sender)
    (date : Int) (text : String) (hp : senderPass cfg.adminId s) :
    (lookup s.id (handleSenderItem cfg st (some s) date text).users).isSome := by
  cases hpu : process_user cfg.adminId s date st.users with
  | mk o d =>
      cases o with
      | none =>
          exfalso
          have := process_user_pass_some cfg.adminId s date st.users hp
          rw [hpu] at this
          exact absurd this (by simp)
      | some u =>
          obtain ⟨hp₂, hl, hd⟩ := process_user_some cfg.adminId s date st.users u d hpu
          simp only [handleSenderItem, hpu, enrichUser]
          by_cases hb : u.is_bot = true
          · rw [if_pos hb]
            show (lookup s.id d).isSome
            rw [hl]; rfl
          · rw [if_neg hb]
            show (lookup s.id
              (replaceKey u.user_id (enrichBio cfg (enrichGender cfg u)) d)).isSome
            rw [replaceKey_isSome, hl]; rfl

theorem handleSenderItem_isSome_mono (cfg : ScanCfg) (st : ScanState)
    (sender : Option Sender) (date : Int) (text : String) (k : Int)
    (h : (lookup k st.users).isSome) :
    (lookup k (handleSenderItem cfg st sender date text).users).isSome := by
  rcases handleSenderItem_cases cfg st sender date text with he | ⟨s, u, d, hs, hpu, he | he⟩
  · rwa [he]
  · rw [he.2]
    show (lookup k d).isSome
    rw [(process_user_some cfg.adminId s date st.users u d hpu).2.2]
    exact processUserCore_isSome cfg.adminId mkBasicUser s date st.users k h
  · rw [he.2]
    show (lookup k (replaceKey u.user_id (enrichBio cfg (enrichGender cfg u)) d)).isSome
    rw [replaceKey_isSome,
      (process_user_some cfg.adminId s date st.users u d hpu).2.2]
    exact processUserCore_isSome cfg.adminId mkBasicUser s date st.users k h

theorem stepComment_isSome_mono (cfg : ScanCfg) (st : ScanState) (c : Comment) (k : Int)
    (h : (lookup k st.users).isSome) :
    (lookup k (stepComment cfg st c).users).isSome := by
  simp only [stepComment]
  by_cases ho : olderThanCutoff cfg.cutoff c.date = true
  · rwa [if_pos ho]
  · rw [if_neg ho]
    exact handleSenderItem_isSome_mono cfg _ c.sender c.date c.text k h

theorem commentsFold_isSome_mono (cfg : ScanCfg) (cs : List Comment) (k : Int) :
    ∀ st : ScanState, (lookup k st.users).isSome →
      (lookup k (commentsFold cfg st cs).users).isSome := by
  induction cs with
  | nil => intro st h; exact h
  | cons c rest ih =>
      intro st h
      exact ih (stepComment cfg st c) (stepComment_isSome_mono cfg st c k h)

theorem commentsFold_mem_isSome (cfg : ScanCfg) (cs : List Comment) (c : Comment)
    (s : Sender) (hc : c ∈ cs) (hs : c.sender = some s) (hp : senderPass cfg.adminId s)
    (hcut : cfg.cutoff = none) :
    ∀ st : ScanState, (lookup s.id (commentsFold cfg st cs).users).isSome := by
  induction cs with
  | nil => simp at hc
  | cons c₀ rest ih =>
      intro st
      rcases List.mem_cons.mp hc with he | he
      · subst he
        apply commentsFold_isSome_mono cfg rest s.id (stepComment cfg st c)
        have hstep : stepComment cfg st c =
            handleSenderItem cfg { st with commentsVisited := st.commentsVisited + 1 }
              c.sender c.date c.text := by
          simp only [stepComment, hcut]
          rfl
        rw [hstep, hs]
        exact handleSenderItem_self_isSome cfg _ s c.date c.text hp
      · exact ih he (stepComment cfg st c₀)

/-- C3: the single-post strategy accepts the cutoff parameter
(`time_filter_days`) but ignores it — the result is independent of it, the
whole comment thread is iterated (`total_messages_scanned` is the full
thread length), and every comment's passing sender reaches the user list no
matter how old the comment is. -/
theorem c3_single_post_bypass (cfg : ScanCfg) (tf tf₂ : Option Int)
    (adminParts : List Sender) (replies : Nat) (thread : List Comment) (title : String) :
    parseSinglePost cfg tf adminParts replies thread title
      = parseSinglePost cfg tf₂ adminParts replies thread title
    ∧ (0 < replies →
        (parseSinglePost cfg tf adminParts replies thread title).result.total_messages_scanned
          = thread.length)
    ∧ (0 < replies → ∀ c ∈ thread, ∀ s, c.sender = some s → senderPass cfg.adminId s →
        s.id ∈ (parseSinglePost cfg tf adminParts replies thread title).result.users.map
          ParsedUser.user_id) := by
  refine ⟨rfl, ?_, ?_⟩
  · intro hr
    unfold parseSinglePost
    rw [if_pos hr]
    show (commentsFold { cfg with cutoff := none } {} thread).commentsVisited = thread.length
    rw [(commentsFold_traceFields { cfg with cutoff := none } thread {}).1]
    simp
  · intro hr c hcm s hs hp
    unfold parseSinglePost
    rw [if_pos hr]
    have hinv : DictInv cfg.adminId
        (commentsFold { cfg with cutoff := none } {} thread).users :=
      commentsFold_DictInv { cfg with cutoff := none } thread {} (DictInv_nil _)
    show s.id ∈ (valuesOf (commentsFold { cfg with cutoff := none } {} thread).users).map
      ParsedUser.user_id
    rw [mem_userId_iff_lookup _ hinv.2.1]
    exact commentsFold_mem_isSome { cfg with cutoff := none } thread c s hcm hs hp rfl {}

/-- Witness for C3: a single-post scan of one old comment is unchanged by a
cutoff parameter and still lists its author. -/
theorem c3_single_post_bypass_witness :
    parseSinglePost cfgPlain (some 99) [] 1 [{ sender := some wSender1, date := 1 }] "t"
      = parseSinglePost cfgPlain none [] 1 [{ sender := some wSender1, date := 1 }] "t"
    ∧ (1 : Int) ∈ (parseSinglePost cfgPlain (some 99) [] 1
        [{ sender := some wSender1, date := 1 }] "t").result.users.map ParsedUser.user_id := by
  have h := c3_single_post_bypass cfgPlain (some 99) none [] 1
    [{ sender := some wSender1, date := 1 }] "t"
  refine ⟨h.1, ?_⟩
  exact h.2.2 (by decide) { sender := some wSender1, date := 1 }
    (List.mem_singleton.mpr rfl) wSender1 rfl (by decide)

theorem mem_insertKey (p : Int × ParsedUser) (k : Int) (u : ParsedUser) (d : UsersDict)
    (h : p ∈ insertKey k u d) : p = (k, u) ∨ p ∈ d := by
  unfold insertKey at h
  by_cases hs : (lookup k d).isSome
  · rw [if_pos hs] at h
    exact mem_replaceKey p k u d h
  · rw [if_neg hs] at h
    rcases List.mem_append.mp h with h₁ | h₁
    · exact Or.inr h₁
    · simp only [List.mem_singleton] at h₁
      exact Or.inl h₁

theorem lookup_insertKey_other (k₁ k : Int) (u : ParsedUser) (d : UsersDict)
    (hk : k ≠ k₁) : lookup k₁ (insertKey k u d) = lookup k₁ d := by
  unfold insertKey
  by_cases hs : (lookup k d).isSome
  · rw [if_pos hs, lookup_replaceKey, if_neg hk]
  · rw [if_neg hs, lookup_append]
    cases hl : lookup k₁ d with
    | some v => rfl
    | none => simp [lookup, hk]

theorem insertKey_keysNodup (k : Int) (u : ParsedUser) (d : UsersDict)
    (h : keysNodup d) : keysNodup (insertKey k u d) := by
  unfold insertKey
  by_cases hs : (lookup k d).isSome
  · rw [if_pos hs]
    unfold keysNodup at h ⊢
    rwa [keys_replaceKey]
  · rw [if_neg hs]
    unfold keysNodup at h ⊢
    simp only [List.map_append, List.map_cons, List.map_nil]
    rw [List.nodup_append]
    refine ⟨h, List.nodup_singleton _, ?_⟩
    intro x hx hx₂
    simp only [List.mem_singleton] at hx₂
    subst hx₂
    exact (lookup_eq_none_iff _ _).mp (Option.not_isSome_iff_eq_none.mp hs) hx

theorem insertKey_DictInv (adminId k : Int) (u : ParsedUser) (d : UsersDict)
    (hu : u.user_id = k) (hk : k ≠ adminId) (h : DictInv adminId d) :
    DictInv adminId (insertKey k u d) := by
  refine ⟨insertKey_keysNodup k u d h.1, ?_, ?_⟩
  · intro p hp
    rcases mem_insertKey p k u d hp with he | he
    · subst he; exact hu
    · exact h.2.1 p he
  · rw [lookup_insertKey_other adminId k u d hk]
    exact h.2.2

theorem participantRecord_user_id (cfg : ScanCfg) (adminsDict : UsersDict) (s : Sender) :
    (participantRecord cfg adminsDict s).user_id = s.id := rfl

theorem stepParticipant_DictInv (cfg : ScanCfg) (adminsDict : UsersDict) (st : ScanState)
    (s : Sender) (h : DictInv cfg.adminId st.users) :
    DictInv cfg.adminId (stepParticipant cfg adminsDict st s).users := by
  unfold stepParticipant
  by_cases hb : s.bot = true
  · rwa [if_pos hb]
  · rw [if_neg hb]
    by_cases ha : s.id = cfg.adminId
    · rwa [if_pos ha]
    · rw [if_neg ha]
      exact insertKey_DictInv cfg.adminId s.id (participantRecord cfg adminsDict s)
        st.users rfl ha h

theorem iterParticipants_inl_DictInv (cfg : ScanCfg) (adminsDict : UsersDict)
    (events : List PartEv) :
    ∀ st st₂ : ScanState, DictInv cfg.adminId st.users →
      iterParticipants cfg adminsDict st events = Sum.inl st₂ →
      DictInv cfg.adminId st₂.users := by
  induction events with
  | nil =>
      intro st st₂ h he
      cases he
      exact h
  | cons ev rest ih =>
      intro st st₂ h he
      cases ev with
      | user s =>
          exact ih _ st₂ (stepParticipant_DictInv cfg adminsDict st s h) he
      | adminRequired => cases he

theorem handleSenderItemExt_DictInv (cfg : ScanCfg) (st : ScanState)
    (sender : Option Sender) (date : Int) (text : String)
    (h : DictInv cfg.adminId st.users) :
    DictInv cfg.adminId (handleSenderItemExt cfg st sender date text).users := by
  cases sender with
  | none => exact h
  | some s =>
      cases hpu : processUserExtended cfg s date st.users with
      | mk o d =>
          have hd : d = (processUserCore cfg.adminId (mkExtendedUser cfg) s date st.users).2 :=
            (congrArg Prod.snd hpu).symm
          have hinvd : DictInv cfg.adminId d := by
            rw [hd]
            exact processUserCore_DictInv cfg.adminId (mkExtendedUser cfg) s date st.users
              (fun _ _ => rfl) h
          cases o with
          | none =>
              simp only [handleSenderItemExt, hpu]
              exact hinvd
          | some u =>
              simp only [handleSenderItemExt, hpu]
              by_cases hbo : u.is_bot = true
              · rw [if_pos hbo]
                exact hinvd
              · rw [if_neg hbo]
                exact hinvd

theorem stepChatByIdMsg_DictInv (cfg : ScanCfg) (st : ScanState) (m : ChatMsg)
    (h : DictInv cfg.adminId st.users) :
    DictInv cfg.adminId (stepChatByIdMsg cfg st m).users :=
  handleSenderItemExt_DictInv cfg { st with itemsScanned := st.itemsScanned + 1 }
    m.sender m.date m.text h

theorem foldChatById_DictInv (cfg : ScanCfg) (msgs : List ChatMsg) :
    ∀ st : ScanState, DictInv cfg.adminId st.users →
      DictInv cfg.adminId (msgs.foldl (stepChatByIdMsg cfg) st).users := by
  induction msgs with
  | nil => intro st h; exact h
  | cons m rest ih =>
      intro st h
      exact ih (stepChatByIdMsg cfg st m) (stepChatByIdMsg_DictInv cfg st m h)

theorem iterChatMsgs_DictInv (cfg : ScanCfg) (msgs : List ChatMsg) :
    ∀ st : ScanState, DictInv cfg.adminId st.users →
      DictInv cfg.adminId (iterChatMsgs cfg st msgs).users := by
  induction msgs with
  | nil => intro st h; exact h
  | cons m rest ih =>
      intro st h
      simp only [iterChatMsgs]
      by_cases hm : olderThanCutoff cfg.cutoff m.date = true
      · rwa [if_pos hm]
      · rw [if_neg hm]
        exact ih _ (handleSenderItem_DictInv cfg _ m.sender m.date m.text h)

theorem adminsFoldl_userId (adminId : Int) (parts : List Sender) :
    ∀ acc : List ParsedUser, (∀ u ∈ acc, u.user_id ≠ adminId) →
      ∀ u ∈ parts.foldl
        (fun acc p => if p.bot = false ∧ p.id ≠ adminId then acc ++ [mkAdminUser p] else acc)
        acc, u.user_id ≠ adminId := by
  induction parts with
  | nil => intro acc h; simpa using h
  | cons p rest ih =>
      intro acc h
      simp only [List.foldl_cons]
      apply ih
      by_cases hp : p.bot = false ∧ p.id ≠ adminId
      · rw [if_pos hp]
        intro u hu
        rcases List.mem_append.mp hu with h₁ | h₁
        · exact h u h₁
        · simp only [List.mem_singleton] at h₁
          subst h₁
          exact hp.2
      · rw [if_neg hp]
        exact h

theorem getChannelAdmins_userId (adminId : Int) (parts : List Sender) :
    ∀ u ∈ getChannelAdmins adminId parts, u.user_id ≠ adminId :=
  adminsFoldl_userId adminId parts [] (by simp)

theorem getChatAdmins_eq_channel : getChatAdmins = getChannelAdmins := rfl

theorem buildAdminsDict_userId (adminId : Int) (admins : List ParsedUser)
    (h : ∀ u ∈ admins, u.user_id ≠ adminId) :
    ∀ p ∈ buildAdminsDict admins, (Prod.snd p).user_id ≠ adminId := by
  have main : ∀ (l : List ParsedUser) (acc : UsersDict),
      (∀ u ∈ l, u.user_id ≠ adminId) → (∀ p ∈ acc, (Prod.snd p).user_id ≠ adminId) →
      ∀ p ∈ l.foldl (fun d a => insertKey a.user_id { a with is_admin := true } d) acc,
        (Prod.snd p).user_id ≠ adminId := by
    intro l
    induction l with
    | nil => intro acc h₁ h₂; simpa using h₂
    | cons a rest ih =>
        intro acc h₁ h₂
        simp only [List.foldl_cons]
        apply ih
        · intro u hu
          exact h₁ u (List.mem_cons_of_mem _ hu)
        · intro p hp
          rcases mem_insertKey p a.user_id _ acc hp with he | he
          · subst he
            exact h₁ a (List.mem_cons_self _ _)
          · exact h₂ p he
  exact main admins [] h (by simp)

theorem not_mem_adminsMap (adminId : Int) (admins : List ParsedUser)
    (h : ∀ u ∈ admins, u.user_id ≠ adminId) :
    adminId ∉ (valuesOf (buildAdminsDict admins)).map ParsedUser.user_id := by
  intro hmem
  rcases List.mem_map.mp hmem with ⟨u, hu, he⟩
  rcases List.mem_map.mp hu with ⟨p, hp, he₂⟩
  exact buildAdminsDict_userId adminId admins h p hp (by rw [he₂]; exact he)

theorem not_mem_users_of_DictInv (adminId : Int) (d : UsersDict) (h : DictInv adminId d) :
    adminId ∉ (valuesOf d).map ParsedUser.user_id := by
  rw [mem_userId_iff_lookup d h.2.1, h.2.2]
  simp

theorem parseChannelComments_users_shape (cfg : ScanCfg) (adminParts : List Sender)
    (posts : List Post) (title : String) :
    (parseChannelComments cfg adminParts posts title).result.users
        = valuesOf (stateOf (iterPosts cfg {} posts)).users
      ∨ (parseChannelComments cfg adminParts posts title).result.users = [] := by
  cases hrun : iterPosts cfg ({} : ScanState) posts with
  | inl st =>
      left
      simp only [parseChannelComments, hrun, stateOf]
  | inr e =>
      obtain ⟨st, n⟩ := e
      by_cases hn : n ≤ MAX_FLOOD_WAIT
      · left
        simp only [parseChannelComments, hrun, if_pos hn, stateOf]
      · right
        simp only [parseChannelComments, hrun, if_neg hn]

theorem parseChannelComments_admins_shape (cfg : ScanCfg) (adminParts : List Sender)
    (posts : List Post) (title : String) :
    (parseChannelComments cfg adminParts posts title).result.admins
        = valuesOf (buildAdminsDict (getChannelAdmins cfg.adminId adminParts))
      ∨ (parseChannelComments cfg adminParts posts title).result.admins = [] := by
  cases hrun : iterPosts cfg ({} : ScanState) posts with
  | inl st =>
      left
      simp only [parseChannelComments, hrun]
  | inr e =>
      obtain ⟨st, n⟩ := e
      by_cases hn : n ≤ MAX_FLOOD_WAIT
      · left
        simp only [parseChannelComments, hrun, if_pos hn]
      · right
        simp only [parseChannelComments, hrun, if_neg hn]

/-- C4: across all five scan strategies, for every input the configured
operator identity (`config.ADMIN_ID`) never appears among the identity ids
of the result's `users` list nor of its `admins` list. -/
theorem c4_hidden_self (cfg : ScanCfg) (adminParts : List Sender) (posts : List Post)
    (msgs msgsB : List ChatMsg) (tf : Option Int) (replies : Nat) (thread : List Comment)
    (pevents : List PartEv) (title : String) :
    (cfg.adminId ∉
        (parseChannelComments cfg adminParts posts title).result.users.map ParsedUser.user_id
      ∧ cfg.adminId ∉
        (parseChannelComments cfg adminParts posts title).result.admins.map ParsedUser.user_id)
    ∧ (cfg.adminId ∉
        (parseChatMembers cfg adminParts msgs title).result.users.map ParsedUser.user_id
      ∧ cfg.adminId ∉
        (parseChatMembers cfg adminParts msgs title).result.admins.map ParsedUser.user_id)
    ∧ (cfg.adminId ∉
        (parseSinglePost cfg tf adminParts replies thread title).result.users.map ParsedUser.user_id
      ∧ cfg.adminId ∉
        (parseSinglePost cfg tf adminParts replies thread title).result.admins.map ParsedUser.user_id)
    ∧ (cfg.adminId ∉
        (parseChatParticipants cfg adminParts pevents title).result.users.map ParsedUser.user_id
      ∧ cfg.adminId ∉
        (parseChatParticipants cfg adminParts pevents title).result.admins.map ParsedUser.user_id)
    ∧ (cfg.adminId ∉
        (parseChatById cfg adminParts msgsB title).result.users.map ParsedUser.user_id
      ∧ cfg.adminId ∉
        (parseChatById cfg adminParts msgsB title).result.admins.map ParsedUser.user_id) := by
  have hadm : cfg.adminId ∉
      (valuesOf (buildAdminsDict (getChannelAdmins cfg.adminId adminParts))).map
        ParsedUser.user_id :=
    not_mem_adminsMap cfg.adminId _ (getChannelAdmins_userId cfg.adminId adminParts)
  refine ⟨⟨?_, ?_⟩, ⟨?_, ?_⟩, ⟨?_, ?_⟩, ⟨?_, ?_⟩, ⟨?_, ?_⟩⟩
  · rcases parseChannelComments_users_shape cfg adminParts posts title with he | he
    · rw [he]
      exact not_mem_users_of_DictInv cfg.adminId _
        (iterPosts_DictInv cfg posts {} (DictInv_nil _))
    · rw [he]; simp
  · rcases parseChannelComments_admins_shape cfg adminParts posts title with he | he
    · rw [he]; exact hadm
    · rw [he]; simp
  · have he : (parseChatMembers cfg adminParts msgs title).result.users
        = valuesOf (iterChatMsgs cfg {} msgs).users := rfl
    rw [he]
    exact not_mem_users_of_DictInv cfg.adminId _
      (iterChatMsgs_DictInv cfg msgs {} (DictInv_nil _))
  · have he : (parseChatMembers cfg adminParts msgs title).result.admins
        = valuesOf (buildAdminsDict (getChatAdmins cfg.adminId adminParts)) := rfl
    rw [he, getChatAdmins_eq_channel]
    exact hadm
  · by_cases hr : 0 < replies
    · have he : (parseSinglePost cfg tf adminParts replies thread title).result.users
          = valuesOf (commentsFold { cfg with cutoff := none } {} thread).users := by
        unfold parseSinglePost
        rw [if_pos hr]
      rw [he]
      exact not_mem_users_of_DictInv cfg.adminId _
        (commentsFold_DictInv { cfg with cutoff := none } thread {} (DictInv_nil _))
    · have he : (parseSinglePost cfg tf adminParts replies thread title).result.users = [] := by
        unfold parseSinglePost
        rw [if_neg hr]
      rw [he]; simp
  · by_cases hr : 0 < replies
    · have he : (parseSinglePost cfg tf adminParts replies thread title).result.admins
          = valuesOf (buildAdminsDict (getChannelAdmins cfg.adminId adminParts)) := by
        unfold parseSinglePost
        rw [if_pos hr]
      rw [he]; exact hadm
    · have he : (parseSinglePost cfg tf adminParts replies thread title).result.admins
          = valuesOf (buildAdminsDict (getChannelAdmins cfg.adminId adminParts)) := by
        unfold parseSinglePost
        rw [if_neg hr]
      rw [he]; exact hadm
  · cases hrun : iterParticipants cfg
        (buildAdminsDict (getChannelAdmins cfg.adminId adminParts)) {} pevents with
    | inl st =>
        have he : (parseChatParticipants cfg adminParts pevents title).result.users
            = valuesOf st.users := by
          simp only [parseChatParticipants, hrun]
        rw [he]
        exact not_mem_users_of_DictInv cfg.adminId _
          (iterParticipants_inl_DictInv cfg _ pevents {} st (DictInv_nil _) hrun)
    | inr st =>
        have he : (parseChatParticipants cfg adminParts pevents title).result.users = [] := by
          simp only [parseChatParticipants, hrun]
        rw [he]; simp
  · cases hrun : iterParticipants cfg
        (buildAdminsDict (getChannelAdmins cfg.adminId adminParts)) {} pevents with
    | inl st =>
        have he : (parseChatParticipants cfg adminParts pevents title).result.admins
            = valuesOf (buildAdminsDict (getChannelAdmins cfg.adminId adminParts)) := by
          simp only [parseChatParticipants, hrun]
        rw [he]; exact hadm
    | inr st =>
        have he : (parseChatParticipants cfg adminParts pevents title).result.admins = [] := by
          simp only [parseChatParticipants, hrun]
        rw [he]; simp
  · have he : (parseChatById cfg adminParts msgsB title).result.users
        = valuesOf (msgsB.foldl (stepChatByIdMsg cfg) {}).users := rfl
    rw [he]
    exact not_mem_users_of_DictInv cfg.adminId _
      (foldChatById_DictInv cfg msgsB {} (DictInv_nil _))
  · have he : (parseChatById cfg adminParts msgsB title).result.admins
        = valuesOf (buildAdminsDict (getChatAdmins cfg.adminId adminParts)) := rfl
    rw [he, getChatAdmins_eq_channel]
    exact hadm

/-- Witness for C4: in a concrete scan whose thread and admin list both
contain the operator id 99, neither output list mentions it. -/
theorem c4_hidden_self_witness :
    (99 : Int) ∉ (parseChannelComments cfgPlain [sAdmin99, wSender1]
        [c4post] "t").result.users.map ParsedUser.user_id
    ∧ (99 : Int) ∉ (parseChannelComments cfgPlain [sAdmin99, wSender1]
        [c4post] "t").result.admins.map ParsedUser.user_id := by
  have h := c4_hidden_self cfgPlain [sAdmin99, wSender1] [c4post] [] [] none 0 [] [] "t"
  exact ⟨h.1.1, h.1.2⟩

theorem iterParticipants_pre_adminRequired (cfg : ScanCfg) (adminsDict : UsersDict)
    (pre : List Sender) (tail : List PartEv) :
    ∀ st : ScanState,
      iterParticipants cfg adminsDict st (pre.map PartEv.user ++ PartEv.adminRequired :: tail)
        = Sum.inr (pre.foldl (stepParticipant cfg adminsDict) st) := by
  induction pre with
  | nil => intro st; rfl
  | cons s rest ih =>
      intro st
      exact ih (stepParticipant cfg adminsDict st s)

/-- C7: when the participant listing hits the provider's
`ChatAdminRequiredError` (hidden membership list), the strategy returns a
result — it does not raise — whose `errors` list is exactly the sentinel
`["HIDDEN_MEMBERS"]`, with no users surfaced. -/
theorem c7_hidden_members_sentinel (cfg : ScanCfg) (adminParts : List Sender)
    (pre : List Sender) (tail : List PartEv) (title : String) :
    (parseChatParticipants cfg adminParts
        (pre.map PartEv.user ++ PartEv.adminRequired :: tail) title).result.errors
      = ["HIDDEN_MEMBERS"]
    ∧ (parseChatParticipants cfg adminParts
        (pre.map PartEv.user ++ PartEv.adminRequired :: tail) title).result.users = [] := by
  have hrun := iterParticipants_pre_adminRequired cfg
    (buildAdminsDict (getChannelAdmins cfg.adminId adminParts)) pre tail {}
  constructor
  · simp only [parseChatParticipants, hrun]
  · simp only [parseChatParticipants, hrun]

/-- C6 counterexample: a flood wait of 5 s inside the first post's thread —
the engine sleeps 6 s but abandons the rest of that thread (the comment by
identity 2 after the wait signal is never processed), continuing with the
next post and no error note; and a 301 s wait inside a post's thread aborts
the whole scan (the next post's identity 3 never appears, `users` is empty,
a too-long note is recorded) instead of skipping just that post. -/
theorem c6_counterexample :
    ((parseChannelComments cfgPlain [] [c6postA, c6postB] "t").result.users.map
        ParsedUser.user_id = [1, 3]
      ∧ (2 : Int) ∉ (parseChannelComments cfgPlain [] [c6postA, c6postB] "t").result.users.map
          ParsedUser.user_id
      ∧ (parseChannelComments cfgPlain [] [c6postA, c6postB] "t").sleeps = [6]
      ∧ (parseChannelComments cfgPlain [] [c6postA, c6postB] "t").result.errors = [])
    ∧ ((parseChannelComments cfgPlain [] [c6postX, c6postB] "t").result.users = []
      ∧ (parseChannelComments cfgPlain [] [c6postX, c6postB] "t").result.errors
          = [floodTooLongMsg 301]
      ∧ (3 : Int) ∉ (parseChannelComments cfgPlain [] [c6postX, c6postB] "t").result.users.map
          ParsedUser.user_id) := by
  decide

/-- C6 amended: on a wait signal of `n` seconds during a post's thread, if
`n` is within the ceiling the engine sleeps `n+1` seconds, abandons the
remainder of that post's thread, and continues with the next post without
recording any error (thread progress after the signal is lost, not
resumed); if `n` exceeds the ceiling the exception propagates and the whole
scan stops: the result carries only the too-long error note, its `users`
list is empty, and later posts are never scanned. -/
theorem c6_flood_thread_amended (cfg : ScanCfg) (adminParts : List Sender) (title : String)
    (cs : List Comment) (n : Nat) (tail : List ThreadEv) (pdate : Int) (prep : Nat)
    (rest : List Post) (st : ScanState)
    (hp : olderThanCutoff cfg.cutoff pdate = false) (hr : 0 < prep) :
    (n ≤ MAX_FLOOD_WAIT →
      iterPosts cfg st
          ({ date := pdate, replies := prep,
             thread := cs.map ThreadEv.comment ++ ThreadEv.flood n :: tail } :: rest)
        = iterPosts cfg
            (let st₂ := commentsFold cfg { st with itemsScanned := st.itemsScanned + 1 } cs
             { st₂ with sleeps := st₂.sleeps ++ [n + 1] }) rest)
    ∧ (MAX_FLOOD_WAIT < n →
      (parseChannelComments cfg adminParts
          ({ date := pdate, replies := prep,
             thread := cs.map ThreadEv.comment ++ ThreadEv.flood n :: tail } :: rest)
          title).result.users = []
      ∧ (parseChannelComments cfg adminParts
          ({ date := pdate, replies := prep,
             thread := cs.map ThreadEv.comment ++ ThreadEv.flood n :: tail } :: rest)
          title).result.errors = [floodTooLongMsg n]
      ∧ (parseChannelComments cfg adminParts
          ({ date := pdate, replies := prep,
             thread := cs.map ThreadEv.comment ++ ThreadEv.flood n :: tail } :: rest)
          title).result.raw_messages
        = (commentsFold cfg { ({} : ScanState) with itemsScanned := 1 } cs).raw) := by
  have hno : ¬ (olderThanCutoff cfg.cutoff pdate = true) := by
    rw [hp]; simp
  constructor
  · intro hn
    simp only [iterPosts]
    rw [if_neg hno]
    have hrp : runPost cfg { st with itemsScanned := st.itemsScanned + 1 }
        { date := pdate, replies := prep,
          thread := cs.map ThreadEv.comment ++ ThreadEv.flood n :: tail }
        = Sum.inl
            (let st₂ := commentsFold cfg { st with itemsScanned := st.itemsScanned + 1 } cs
             { st₂ with sleeps := st₂.sleeps ++ [n + 1] }) := by
      simp only [runPost, iterThread_flood cfg cs n tail, if_pos hr, if_pos hn]
    rw [hrp]
  · intro hn
    have hn₂ : ¬ n ≤ MAX_FLOOD_WAIT := by omega
    have hrun : iterPosts cfg ({} : ScanState)
        ({ date := pdate, replies := prep,
           thread := cs.map ThreadEv.comment ++ ThreadEv.flood n :: tail } :: rest)
        = Sum.inr (commentsFold cfg { ({} : ScanState) with itemsScanned := 1 } cs, n) := by
      simp only [iterPosts]
      rw [if_neg hno]
      have hrp : ∀ st₀ : ScanState, runPost cfg st₀
          { date := pdate, replies := prep,
            thread := cs.map ThreadEv.comment ++ ThreadEv.flood n :: tail }
          = Sum.inr (commentsFold cfg st₀ cs, n) := by
        intro st₀
        simp only [runPost, iterThread_flood cfg cs n tail, if_pos hr, if_neg hn₂]
      rw [hrp]
    refine ⟨?_, ?_, ?_⟩ <;> simp only [parseChannelComments, hrun, if_neg hn₂]

/-- Witness for C6 amended: the concrete two-post scan with a 5 s wait
resolves to abandoning the first post's thread remainder, sleeping 6 s, and
continuing with the second post. -/
theorem c6_flood_thread_amended_witness :
    iterPosts cfgPlain {} [c6postA, c6postB]
      = iterPosts cfgPlain
          (let st₂ := commentsFold cfgPlain ({ itemsScanned := 1 } : ScanState)
            [{ sender := some wSender1, date := 9 }]
           { st₂ with sleeps := st₂.sleeps ++ [6] }) [c6postB] := by
  have h := c6_flood_thread_amended cfgPlain [] "t" [{ sender := some wSender1, date := 9 }] 5
    [ThreadEv.comment { sender := some wSender2, date := 9 }] 10 2 [c6postB] {} rfl
    (by decide)
  exact h.1 (by decide)

theorem nodup_append_single (l : List Int) (x : Int) (h : l.Nodup) (hx : x ∉ l) :
    (l ++ [x]).Nodup := by
  rw [List.nodup_append]
  refine ⟨h, List.nodup_singleton _, ?_⟩
  intro a ha hb
  simp only [List.mem_singleton] at hb
  subst hb
  exact hx ha

theorem optFalsy_detectGender (fn : Option String) :
    optFalsy (some (detectGender fn)) = false := by
  simp [optFalsy, detectGender_ne_empty fn]

theorem enrichGender_gender (cfg : ScanCfg) (u : ParsedUser) :
    (enrichGender cfg u).gender =
      if cfg.detect_gender = true ∧ optFalsy u.gender = true then
        some (detectGender u.first_name)
      else u.gender := by
  unfold enrichGender
  split_ifs <;> rfl

theorem enrichBio_bio (cfg : ScanCfg) (u : ParsedUser) :
    (enrichBio cfg u).bio =
      if cfg.parse_bio = true ∧ optFalsy u.bio = true then cfg.bioOf u.user_id else u.bio := by
  unfold enrichBio
  split_ifs <;> rfl

theorem enrichPair_bio (cfg : ScanCfg) (u : ParsedUser) :
    (enrichBio cfg (enrichGender cfg u)).bio =
      if cfg.parse_bio = true ∧ optFalsy u.bio = true then cfg.bioOf u.user_id else u.bio := by
  rw [enrichBio_bio, (enrichGender_fields cfg u).2.1, (enrichGender_fields cfg u).1]

theorem enrichPair_gender (cfg : ScanCfg) (u : ParsedUser) :
    (enrichBio cfg (enrichGender cfg u)).gender =
      if cfg.detect_gender = true ∧ optFalsy u.gender = true then
        some (detectGender u.first_name)
      else u.gender := by
  rw [(enrichBio_fields cfg (enrichGender cfg u)).2.1, enrichGender_gender]

theorem genderTrace_eq (cfg : ScanCfg) (u : ParsedUser) :
    genderTrace cfg u =
      if cfg.detect_gender = true ∧ optFalsy u.gender = true then [u.user_id] else [] := rfl

theorem bioTrace_eq (cfg : ScanCfg) (u : ParsedUser) :
    bioTrace cfg u =
      if cfg.parse_bio = true ∧ optFalsy u.bio = true then [u.user_id] else [] := rfl

theorem process_user_some_rel (adminId : Int) (s : Sender) (t : Int) (d : UsersDict)
    (u : ParsedUser) (d₂ : UsersDict) (h : process_user adminId s t d = (some u, d₂)) :
    (∃ v, lookup s.id d = some v ∧ u.gender = v.gender ∧ u.bio = v.bio
       ∧ u.first_name = v.first_name)
    ∨ (lookup s.id d = none ∧ u = mkBasicUser s t) := by
  by_cases hp : senderPass adminId s
  · cases hl : lookup s.id d with
    | some v =>
        left
        rw [process_user, processUserCore_pass_found adminId mkBasicUser s t d v hp hl] at h
        have hu := Option.some.inj (congrArg Prod.fst h)
        exact ⟨v, rfl, by rw [← hu], by rw [← hu], by rw [← hu]⟩
    | none =>
        right
        rw [process_user, processUserCore_pass_new adminId mkBasicUser s t d hp hl] at h
        exact ⟨rfl, (Option.some.inj (congrArg Prod.fst h)).symm⟩
  · rw [process_user, processUserCore_not_pass adminId mkBasicUser s t d hp] at h
    exact absurd (congrArg Prod.fst h) (by simp)

theorem enrichStep_parts (cfg : ScanCfg) (st : ScanState) (s : Sender) (u : ParsedUser)
    (d : UsersDict) (date : Int)
    (hpu : process_user cfg.adminId s date st.users = (some u, d))
    (hD : DictInv cfg.adminId st.users)
    (hG₁ : st.genderApplied.Nodup)
    (hG₂ : ∀ id ∈ st.genderApplied, ∃ v, lookup id st.users = some v ∧ optFalsy v.gender = false)
    (hB₁ : ∀ id : Int, optFalsy (cfg.bioOf id) = false → st.bioFetches.count id ≤ 1)
    (hB₂ : ∀ id ∈ st.bioFetches, ∃ v, lookup id st.users = some v ∧ v.bio = cfg.bioOf id) :
    DictInv cfg.adminId (replaceKey u.user_id (enrichBio cfg (enrichGender cfg u)) d)
    ∧ (st.genderApplied ++ genderTrace cfg u).Nodup
    ∧ (∀ id ∈ st.genderApplied ++ genderTrace cfg u,
        ∃ w, lookup id (replaceKey u.user_id (enrichBio cfg (enrichGender cfg u)) d) = some w
          ∧ optFalsy w.gender = false)
    ∧ (∀ id : Int, optFalsy (cfg.bioOf id) = false →
        (st.bioFetches ++ bioTrace cfg u).count id ≤ 1)
    ∧ (∀ id ∈ st.bioFetches ++ bioTrace cfg u,
        ∃ w, lookup id (replaceKey u.user_id (enrichBio cfg (enrichGender cfg u)) d) = some w
          ∧ w.bio = cfg.bioOf id) := by
  obtain ⟨hp, hl, hd⟩ := process_user_some cfg.adminId s date st.users u d hpu
  have hDd : DictInv cfg.adminId d := by
    rw [hd]
    exact processUserCore_DictInv cfg.adminId mkBasicUser s date st.users (fun _ _ => rfl) hD
  have huid : u.user_id = s.id := hDd.2.1 (s.id, u) (lookup_mem s.id u d hl)
  have hrel := process_user_some_rel cfg.adminId s date st.users u d hpu
  have hu₂id : (enrichBio cfg (enrichGender cfg u)).user_id = u.user_id := by
    rw [(enrichBio_fields cfg (enrichGender cfg u)).1, (enrichGender_fields cfg u).1]
  have hlu : lookup u.user_id d = some u := by rw [huid]; exact hl
  have hGnotmem : optFalsy u.gender = true → u.user_id ∉ st.genderApplied := by
    intro hfal hmem
    obtain ⟨vg, hvg, hvgf⟩ := hG₂ u.user_id hmem
    rw [huid] at hvg
    rcases hrel with ⟨v, hlst, hug, -, -⟩ | ⟨hlst, -⟩
    · rw [hlst] at hvg
      have hv : v = vg := Option.some.inj hvg
      rw [hv] at hug
      rw [hug, hvgf] at hfal
      exact absurd hfal (by simp)
    · rw [hlst] at hvg
      exact Option.noConfusion hvg
  have hBnotmem : optFalsy (cfg.bioOf u.user_id) = false → optFalsy u.bio = true →
      u.user_id ∉ st.bioFetches := by
    intro hnf hfal hmem
    obtain ⟨vb, hvb, hvbb⟩ := hB₂ u.user_id hmem
    rw [huid] at hvb
    rcases hrel with ⟨v, hlst, -, hub, -⟩ | ⟨hlst, -⟩
    · rw [hlst] at hvb
      have hv : v = vb := Option.some.inj hvb
      rw [hv] at hub
      rw [hub, hvbb] at hfal
      rw [hfal] at hnf
      exact absurd hnf (by simp)
    · rw [hlst] at hvb
      exact Option.noConfusion hvb
  have hold_g : ∀ id ∈ st.genderApplied,
      ∃ w, lookup id (replaceKey u.user_id (enrichBio cfg (enrichGender cfg u)) d) = some w
        ∧ optFalsy w.gender = false := by
    intro id hid
    obtain ⟨v, hv, hvf⟩ := hG₂ id hid
    obtain ⟨w, hw, hwb, hwg, -, -⟩ :=
      processUserCore_lookup_pres cfg.adminId mkBasicUser s date st.users id v hv
    have hwd : lookup id d = some w := by rw [hd]; exact hw
    by_cases hk : u.user_id = id
    · have hwu : w = u := by
        rw [← hk] at hwd
        rw [hlu] at hwd
        exact (Option.some.inj hwd).symm
      refine ⟨enrichBio cfg (enrichGender cfg u), ?_, ?_⟩
      · rw [lookup_replaceKey, if_pos hk, ← hk, hlu]
        rfl
      · rw [enrichPair_gender]
        by_cases hgc : cfg.detect_gender = true ∧ optFalsy u.gender = true
        · rw [if_pos hgc]
          exact optFalsy_detectGender _
        · rw [if_neg hgc]
          have hug : u.gender = v.gender := by rw [← hwu]; exact hwg
          rw [hug]
          exact hvf
    · refine ⟨w, ?_, ?_⟩
      · rw [lookup_replaceKey, if_neg hk]
        exact hwd
      · rw [hwg]
        exact hvf
  have hold_b : ∀ id ∈ st.bioFetches,
      ∃ w, lookup id (replaceKey u.user_id (enrichBio cfg (enrichGender cfg u)) d) = some w
        ∧ w.bio = cfg.bioOf id := by
    intro id hid
    obtain ⟨v, hv, hvb⟩ := hB₂ id hid
    obtain ⟨w, hw, hwb, hwg, -, -⟩ :=
      processUserCore_lookup_pres cfg.adminId mkBasicUser s date st.users id v hv
    have hwd : lookup id d = some w := by rw [hd]; exact hw
    by_cases hk : u.user_id = id
    · have hwu : w = u := by
        rw [← hk] at hwd
        rw [hlu] at hwd
        exact (Option.some.inj hwd).symm
      refine ⟨enrichBio cfg (enrichGender cfg u), ?_, ?_⟩
      · rw [lookup_replaceKey, if_pos hk, ← hk, hlu]
        rfl
      · rw [enrichPair_bio]
        by_cases hbc : cfg.parse_bio = true ∧ optFalsy u.bio = true
        · rw [if_pos hbc, hk]
        · rw [if_neg hbc]
          have hub : u.bio = v.bio := by rw [← hwu]; exact hwb
          rw [hub, hvb]
    · refine ⟨w, ?_, ?_⟩
      · rw [lookup_replaceKey, if_neg hk]
        exact hwd
      · rw [hwb]
        exact hvb
  refine ⟨replaceKey_DictInv cfg.adminId u.user_id _ d hu₂id hDd, ?_, ?_, ?_, ?_⟩
  · rw [genderTrace_eq]
    by_cases hgc : cfg.detect_gender = true ∧ optFalsy u.gender = true
    · rw [if_pos hgc]
      exact nodup_append_single _ _ hG₁ (hGnotmem hgc.2)
    · rw [if_neg hgc]
      simpa using hG₁
  · intro id hid
    rw [genderTrace_eq] at hid
    by_cases hgc : cfg.detect_gender = true ∧ optFalsy u.gender = true
    · rw [if_pos hgc] at hid
      rcases List.mem_append.mp hid with h₁ | h₁
      · exact hold_g id h₁
      · simp only [List.mem_singleton] at h₁
        subst h₁
        refine ⟨enrichBio cfg (enrichGender cfg u), ?_, ?_⟩
        · rw [lookup_replaceKey, if_pos rfl, hlu]
          rfl
        · rw [enrichPair_gender, if_pos hgc]
          exact optFalsy_detectGender _
    · rw [if_neg hgc] at hid
      rw [List.append_nil] at hid
      exact hold_g id hid
  · intro id hnf
    rw [bioTrace_eq]
    by_cases hbc : cfg.parse_bio = true ∧ optFalsy u.bio = true
    · rw [if_pos hbc, List.count_append]
      by_cases hk : id = u.user_id
      · subst hk
        have hnm : u.user_id ∉ st.bioFetches := hBnotmem hnf hbc.2
        rw [List.count_eq_zero.mpr hnm]
        simp [List.count_cons]
      · have hc0 : List.count id [u.user_id] = 0 :=
          List.count_eq_zero.mpr (by simp [hk])
        rw [hc0]
        have := hB₁ id hnf
        omega
    · rw [if_neg hbc, List.append_nil]
      exact hB₁ id hnf
  · intro id hid
    rw [bioTrace_eq] at hid
    by_cases hbc : cfg.parse_bio = true ∧ optFalsy u.bio = true
    · rw [if_pos hbc] at hid
      rcases List.mem_append.mp hid with h₁ | h₁
      · exact hold_b id h₁
      · simp only [List.mem_singleton] at h₁
        subst h₁
        refine ⟨enrichBio cfg (enrichGender cfg u), ?_, ?_⟩
        · rw [lookup_replaceKey, if_pos rfl, hlu]
          rfl
        · rw [enrichPair_bio, if_pos hbc]
    · rw [if_neg hbc] at hid
      rw [List.append_nil] at hid
      exact hold_b id hid

theorem handleSenderItem_EnrichInv (cfg : ScanCfg) (st : ScanState)
    (sender : Option Sender) (date : Int) (text : String) (h : EnrichInv cfg st) :
    EnrichInv cfg (handleSenderItem cfg st sender date text) := by
  obtain ⟨hD, hG₁, hG₂, hB₁, hB₂⟩ := h
  rcases handleSenderItem_cases cfg st sender date text with he | ⟨s, u, d, hs, hpu, he | he⟩
  · rw [he]
    exact ⟨hD, hG₁, hG₂, hB₁, hB₂⟩
  · rw [he.2]
    obtain ⟨hp, hl, hd⟩ := process_user_some cfg.adminId s date st.users u d hpu
    have hDd : DictInv cfg.adminId d := by
      rw [hd]
      exact processUserCore_DictInv cfg.adminId mkBasicUser s date st.users (fun _ _ => rfl) hD
    refine ⟨hDd, hG₁, ?_, hB₁, ?_⟩
    · intro id hid
      obtain ⟨v, hv, hvf⟩ := hG₂ id hid
      obtain ⟨w, hw, hwb, hwg, -, -⟩ :=
        processUserCore_lookup_pres cfg.adminId mkBasicUser s date st.users id v hv
      refine ⟨w, ?_, ?_⟩
      · show lookup id d = some w
        rw [hd]
        exact hw
      · rw [hwg]
        exact hvf
    · intro id hid
      obtain ⟨v, hv, hvb⟩ := hB₂ id hid
      obtain ⟨w, hw, hwb, hwg, -, -⟩ :=
        processUserCore_lookup_pres cfg.adminId mkBasicUser s date st.users id v hv
      refine ⟨w, ?_, ?_⟩
      · show lookup id d = some w
        rw [hd]
        exact hw
      · rw [hwb]
        exact hvb
  · rw [he.2]
    have hparts := enrichStep_parts cfg st s u d date hpu hD hG₁ hG₂ hB₁ hB₂
    exact ⟨hparts.1, hparts.2.1, hparts.2.2.1, hparts.2.2.2.1, hparts.2.2.2.2⟩

theorem stepComment_EnrichInv (cfg : ScanCfg) (st : ScanState) (c : Comment)
    (h : EnrichInv cfg st) : EnrichInv cfg (stepComment cfg st c) := by
  simp only [stepComment]
  by_cases hc : olderThanCutoff cfg.cutoff c.date = true
  · rw [if_pos hc]
    exact ⟨h.1, h.2.1, h.2.2.1, h.2.2.2.1, h.2.2.2.2⟩
  · rw [if_neg hc]
    exact handleSenderItem_EnrichInv cfg _ c.sender c.date c.text
      ⟨h.1, h.2.1, h.2.2.1, h.2.2.2.1, h.2.2.2.2⟩

theorem iterThread_EnrichInv (cfg : ScanCfg) (evs : List ThreadEv) :
    ∀ st : ScanState, EnrichInv cfg st → EnrichInv cfg (stateOf (iterThread cfg st evs)) := by
  induction evs with
  | nil => intro st h; exact h
  | cons ev rest ih =>
      intro st h
      cases ev with
      | comment c => exact ih (stepComment cfg st c) (stepComment_EnrichInv cfg st c h)
      | flood n => exact h

theorem runPost_EnrichInv (cfg : ScanCfg) (p : Post) (st : ScanState)
    (h : EnrichInv cfg st) : EnrichInv cfg (stateOf (runPost cfg st p)) := by
  unfold runPost
  by_cases hr : 0 < p.replies
  · rw [if_pos hr]
    have hthread := iterThread_EnrichInv cfg p.thread st h
    cases hit : iterThread cfg st p.thread with
    | inl st₂ =>
        rw [hit] at hthread
        exact hthread
    | inr e =>
        obtain ⟨st₂, n⟩ := e
        rw [hit] at hthread
        show EnrichInv cfg (stateOf (if n ≤ MAX_FLOOD_WAIT then
          Sum.inl { st₂ with sleeps := st₂.sleeps ++ [n + 1] } else Sum.inr (st₂, n)))
        by_cases hn : n ≤ MAX_FLOOD_WAIT
        · rw [if_pos hn]
          exact hthread
        · rw [if_neg hn]
          exact hthread
  · rw [if_neg hr]
    exact h

theorem iterPosts_EnrichInv (cfg : ScanCfg) (posts : List Post) :
    ∀ st : ScanState, EnrichInv cfg st → EnrichInv cfg (stateOf (iterPosts cfg st posts)) := by
  induction posts with
  | nil => intro st h; exact h
  | cons p rest ih =>
      intro st h
      simp only [iterPosts]
      by_cases hc : olderThanCutoff cfg.cutoff p.date = true
      · rw [if_pos hc]
        exact h
      · rw [if_neg hc]
        have hrp := runPost_EnrichInv cfg p { st with itemsScanned := st.itemsScanned + 1 } h
        cases hrun : runPost cfg { st with itemsScanned := st.itemsScanned + 1 } p with
        | inl st₂ =>
            rw [hrun] at hrp
            exact ih st₂ hrp
        | inr e =>
            obtain ⟨st₂, n⟩ := e
            rw [hrun] at hrp
            exact hrp

theorem parseChannelComments_traces (cfg : ScanCfg) (adminParts : List Sender)
    (posts : List Post) (title : String) :
    (parseChannelComments cfg adminParts posts title).genderApplied
        = (stateOf (iterPosts cfg {} posts)).genderApplied
    ∧ (parseChannelComments cfg adminParts posts title).bioFetches
        = (stateOf (iterPosts cfg {} posts)).bioFetches := by
  cases hrun : iterPosts cfg ({} : ScanState) posts with
  | inl st =>
      constructor <;> simp only [parseChannelComments, hrun, stateOf]
  | inr e =>
      obtain ⟨st, n⟩ := e
      by_cases hn : n ≤ MAX_FLOOD_WAIT
      · constructor <;> simp only [parseChannelComments, hrun, if_pos hn, stateOf]
      · constructor <;> simp only [parseChannelComments, hrun, if_neg hn, stateOf]

/-- C8 counterexample: with bio enrichment on and a profile store holding
no bio text, two sightings of identity 1 in one thread trigger the bio
fetch twice (`not user.bio` is still true after a fetch that returned
nothing), so the fetch is re-applied to an already-seen identity. -/
theorem c8_counterexample :
    (parseChannelComments cfgBio [] [c8post] "t").bioFetches = [1, 1]
    ∧ ¬ ((parseChannelComments cfgBio [] [c8post] "t").bioFetches.Nodup) := by
  decide

/-- C8 amended: the gender heuristic is applied to an identity only on its
first sighting (the stored tag is never empty, so the `not user.gender`
guard never re-fires); the bio fetch is guarded by `not user.bio`, so for
an identity whose profile fetch returns text it runs at most once, while it
is re-attempted on later sightings only as long as the stored bio is still
empty; in `_process_user_extended` both enrichments happen only in the
creation branch — a repeat sighting never changes the stored bio or
gender. -/
theorem c8_enrichment_amended (cfg : ScanCfg) (adminParts : List Sender)
    (posts : List Post) (title : String) :
    (parseChannelComments cfg adminParts posts title).genderApplied.Nodup
    ∧ (∀ id : Int, optFalsy (cfg.bioOf id) = false →
        (parseChannelComments cfg adminParts posts title).bioFetches.count id ≤ 1)
    ∧ (∀ (s : Sender) (t : Int) (d : UsersDict) (k : Int) (v w : ParsedUser),
        lookup k d = some v → lookup k (processUserExtended cfg s t d).2 = some w →
        w.bio = v.bio ∧ w.gender = v.gender) := by
  have hinv : EnrichInv cfg (stateOf (iterPosts cfg {} posts)) :=
    iterPosts_EnrichInv cfg posts {}
      ⟨DictInv_nil _, List.nodup_nil, by simp, by intro id h; simp, by simp⟩
  have htr := parseChannelComments_traces cfg adminParts posts title
  refine ⟨?_, ?_, ?_⟩
  · rw [htr.1]
    exact hinv.2.1
  · intro id hnf
    rw [htr.2]
    exact hinv.2.2.2.1 id hnf
  · intro s t d k v w hv hw
    obtain ⟨w₁, hw₁, hwb, hwg, -, -⟩ :=
      processUserCore_lookup_pres cfg.adminId (mkExtendedUser cfg) s t d k v hv
    have hww : w = w₁ := by
      have h₂ : some w = some w₁ := by
        rw [← hw]
        exact hw₁
      exact Option.some.inj h₂
    rw [hww]
    exact ⟨hwb, hwg⟩

/-- Witness for C8 amended: over a profile store where everyone has bio
text, the double-sighting scan fetches identity 1's bio at most once, and
the gender-application trace is duplicate-free. -/
theorem c8_enrichment_amended_witness :
    (parseChannelComments cfgBioSome [] [c8post] "t").bioFetches.count 1 ≤ 1
    ∧ (parseChannelComments cfgBioSome [] [c8post] "t").genderApplied.Nodup := by
  have h := c8_enrichment_amended cfgBioSome [] [c8post] "t"
  exact ⟨h.2.1 1 (by decide), h.1⟩

end NeuroScraper
